import Mathlib

/-!
# Verification of the pbip-documenter core against its specification

Shallow embedding of the TMDL parser, the DAX reference extractor, the
M-expression data-source extractor and the lineage engine, translated from
`tmdl-parser.js`, `m-parser.js` and `lineage-engine.js`.

Character-level scanners mirror the JavaScript regular expressions; they are
written with an explicit fuel argument (structural recursion on `Nat`) so that
every definition is executable by the kernel.  Each scanning step consumes at
least one character, so a fuel of `length + 1` reproduces the unbounded
semantics of the original global-regex loops.
-/

namespace Pbip

/-- JavaScript `\s` (whitespace class), restricted to the characters that can
occur in the repository's inputs. -/
def isJsWS (c : Char) : Bool :=
  c = ' ' || c = '\t' || c = '\n' || c = '\r' || c = '\x0b' || c = '\x0c'

/-- JavaScript `\w` (word character class). -/
def isWordChar (c : Char) : Bool :=
  c.isAlpha || c.isDigit || c = '_'

/-- JavaScript truthiness of a nullable string: `null`/`undefined` and `""`
are falsy. -/
def truthy : Option String → Bool
  | some s => s ≠ ""
  | none => false

/-- JavaScript `a || b || null` on nullable strings. -/
def orNull (a b : Option String) : Option String :=
  if truthy a then a else if truthy b then b else none

/-- JavaScript `a || b || ''` on nullable strings. -/
def jsOrStr (a b : Option String) : String :=
  if truthy a then a.getD "" else if truthy b then b.getD "" else ""

/-- JavaScript `a || b || c || ''` on nullable strings. -/
def jsOrStr3 (a b c : Option String) : String :=
  if truthy a then a.getD "" else if truthy b then b.getD "" else
  if truthy c then c.getD "" else ""

/-- String interpolation of a nullable value (`null` prints as `"null"`). -/
def jsShow : Option String → String
  | some s => s
  | none => "null"

/-- JavaScript `String.prototype.trim`. -/
def jsTrim (s : String) : String :=
  String.mk (((s.toList.dropWhile isJsWS).reverse.dropWhile isJsWS).reverse)

/-- Source `Set.add`: append if not already present (keeps first-insertion order). -/
def setAdd (l : List String) (x : String) : List String :=
  if l.contains x then l else l ++ [x]

/-- First-occurrence deduplication by key, with an accumulator of seen keys. -/
def dedupByAux {α β : Type} [DecidableEq β] (key : α → β) (seen : List β) :
    List α → List α
  | [] => []
  | a :: rest =>
    if key a ∈ seen then dedupByAux key seen rest
    else a :: dedupByAux key (key a :: seen) rest

/-- First-occurrence deduplication by key (JavaScript `Set`/keyed-`Map`
insertion semantics). -/
def dedupBy {α β : Type} [DecidableEq β] (key : α → β) (l : List α) : List α :=
  dedupByAux key [] l

theorem dedupByAux_keys_nodup {α β : Type} [DecidableEq β] (key : α → β) :
    ∀ (l : List α) (seen : List β),
      ((dedupByAux key seen l).map key).Nodup ∧
      ∀ b ∈ dedupByAux key seen l, key b ∉ seen := by
  intro l
  induction l with
  | nil => intro seen; simp [dedupByAux]
  | cons a rest ih =>
    intro seen
    by_cases h : key a ∈ seen
    · simpa [dedupByAux, h] using ih seen
    · have ih' := ih (key a :: seen)
      refine ⟨?_, ?_⟩
      · simp only [dedupByAux, h, if_false, List.map_cons, List.nodup_cons]
        constructor
        · intro hmem
          rcases List.mem_map.mp hmem with ⟨b, hb, hkey⟩
          exact (ih'.2 b hb) (by simp [hkey])
        · exact ih'.1
      · intro b hb
        simp only [dedupByAux, h, if_false, List.mem_cons] at hb
        rcases hb with hb | hb
        · subst hb; exact h
        · intro hmem
          exact (ih'.2 b hb) (by simp [hmem])

theorem dedupBy_keys_nodup {α β : Type} [DecidableEq β] (key : α → β)
    (l : List α) : ((dedupBy key l).map key).Nodup :=
  (dedupByAux_keys_nodup key l []).1

theorem dedupByAux_mem_key {α β : Type} [DecidableEq β] (key : α → β) :
    ∀ (l : List α) (seen : List β) (a : α), a ∈ l →
      key a ∈ seen ∨ ∃ b ∈ dedupByAux key seen l, key b = key a := by
  intro l
  induction l with
  | nil => intro seen a ha; cases ha
  | cons x rest ih =>
    intro seen a ha
    rcases List.mem_cons.mp ha with rfl | ha
    · by_cases h : key a ∈ seen
      · exact Or.inl h
      · exact Or.inr ⟨a, by simp [dedupByAux, h], rfl⟩
    · by_cases h : key x ∈ seen
      · rcases ih seen a ha with h' | ⟨b, hb, hk⟩
        · exact Or.inl h'
        · exact Or.inr ⟨b, by simp [dedupByAux, h, hb], hk⟩
      · rcases ih (key x :: seen) a ha with h' | ⟨b, hb, hk⟩
        · rcases List.mem_cons.mp h' with h'' | h''
          · exact Or.inr ⟨x, by simp [dedupByAux, h], h''.symm⟩
          · exact Or.inl h''
        · exact Or.inr ⟨b, by simp [dedupByAux, h, hb], hk⟩

theorem dedupBy_mem_key {α β : Type} [DecidableEq β] (key : α → β)
    (l : List α) (a : α) (ha : a ∈ l) :
    ∃ b ∈ dedupBy key l, key b = key a := by
  rcases dedupByAux_mem_key key l [] a ha with h | h
  · cases h
  · exact h

/-! ## Character-stream primitives shared by the scanners -/

/-- Split at the first `]`: returns the (possibly empty, `]`-free) content and
the remainder after the `]`, or `none` when the stream has no `]`. -/
def splitAtRBracket : List Char → Option (List Char × List Char)
  | [] => none
  | ']' :: rest => some ([], rest)
  | c :: rest => (splitAtRBracket rest).map (fun p => (c :: p.1, p.2))

/-- Split at the first `'` (single quote), like `splitAtRBracket`. -/
def splitAtSQuote : List Char → Option (List Char × List Char)
  | [] => none
  | '\'' :: rest => some ([], rest)
  | c :: rest => (splitAtSQuote rest).map (fun p => (c :: p.1, p.2))

/-- Split at the first `"` (double quote), like `splitAtRBracket`. -/
def splitAtDQuote : List Char → Option (List Char × List Char)
  | [] => none
  | '"' :: rest => some ([], rest)
  | c :: rest => (splitAtDQuote rest).map (fun p => (c :: p.1, p.2))

/-- Maximal `\w+` run at the head of the stream, with the remainder. -/
def takeWord : List Char → List Char × List Char
  | [] => ([], [])
  | c :: rest =>
    if isWordChar c then
      let p := takeWord rest
      (c :: p.1, p.2)
    else ([], c :: rest)

/-- Source `\s*`: drop leading JavaScript whitespace. -/
def skipWS : List Char → List Char
  | [] => []
  | c :: rest => if isJsWS c then skipWS rest else c :: rest

/-- Case-sensitive literal prefix match; returns the remainder on success. -/
def matchLit : List Char → List Char → Option (List Char)
  | [], l => some l
  | _ :: _, [] => none
  | p :: ps, c :: cs => if p = c then matchLit ps cs else none

/-- Case-insensitive literal prefix match (for `/i` regexes). -/
def matchCI : List Char → List Char → Option (List Char)
  | [], l => some l
  | _ :: _, [] => none
  | p :: ps, c :: cs => if p.toLower = c.toLower then matchCI ps cs else none

/-- First literal alternative that matches as a prefix (regex alternation). -/
def matchHeads : List String → List Char → Option (List Char)
  | [], _ => none
  | h :: hs, l =>
    match matchLit h.toList l with
    | some rest => some rest
    | none => matchHeads hs l

/-- Whether `p` occurs as a contiguous substring of `l`. -/
def hasChunk (p : List Char) : List Char → Bool
  | [] => (matchLit p []).isSome
  | c :: rest => (matchLit p (c :: rest)).isSome || hasChunk p rest

/-- Case-insensitive substring test (`/lit/i.test(s)` for a literal pattern). -/
def hasInfixCI (s pat : String) : Bool :=
  hasChunk (pat.toList.map Char.toLower) (s.toList.map Char.toLower)

/-! ## DAX reference extractor (`tmdl-parser.js`, class `DAXReferenceExtractor`) -/

/-- A `Table[Column]` reference extracted from DAX. -/
structure ColumnRef where
  table : String
  column : String
deriving DecidableEq

/-- The column-reference dedup key `` `${table}|${column}` ``. -/
def colKey (r : ColumnRef) : String := r.table ++ "|" ++ r.column

/-- Result of `DAXReferenceExtractor.extract`. -/
structure DAXResult where
  measureRefs : List String
  columnRefs : List ColumnRef
  tableRefs : List String
deriving DecidableEq

namespace DAXReferenceExtractor

/-- Skip to just past the first `*/`, or `none` when unterminated
(an unterminated block comment is not matched by `/\*[\s\S]*?\*\//`). -/
def dropBlockClose : List Char → Option (List Char)
  | [] => none
  | '*' :: '/' :: rest => some rest
  | _ :: rest => dropBlockClose rest

/-- Source `dax.replace(/\/\*[\s\S]*?\*\//g, '')`: remove terminated block comments. -/
def stripBlockComments (fuel : Nat) : List Char → List Char
  | [] => []
  | c :: rest =>
    match fuel with
    | 0 => c :: rest
    | fuel + 1 =>
      if c = '/' then
        match rest with
        | '*' :: rest2 =>
          match dropBlockClose rest2 with
          | some rest' => stripBlockComments fuel rest'
          | none => c :: rest
        | _ => c :: stripBlockComments fuel rest
      else c :: stripBlockComments fuel rest

/-- Drop up to (but not including) the next line terminator (JS `.` does not
match `\n`/`\r`). -/
def dropToNewline : List Char → List Char
  | [] => []
  | c :: rest => if c = '\n' || c = '\r' then c :: rest else dropToNewline rest

/-- Source `cleaned.replace(/\/\/.*/g, '')`: remove line comments. -/
def stripLineComments (fuel : Nat) : List Char → List Char
  | [] => []
  | c :: rest =>
    match fuel with
    | 0 => c :: rest
    | fuel + 1 =>
      if c = '/' then
        match rest with
        | '/' :: rest2 => stripLineComments fuel (dropToNewline rest2)
        | _ => c :: stripLineComments fuel rest
      else c :: stripLineComments fuel rest

/-- Source `cleaned.replace(/"[^"]*"/g, '""')`: empty out string literals (the two
quote characters remain). -/
def stripStringLits (fuel : Nat) : List Char → List Char
  | [] => []
  | c :: rest =>
    match fuel with
    | 0 => c :: rest
    | fuel + 1 =>
      if c = '"' then
        match splitAtDQuote rest with
        | some (_, rest') => '"' :: '"' :: stripStringLits fuel rest'
        | none => c :: rest
      else c :: stripStringLits fuel rest

/-- Source `DAXReferenceExtractor._cleanDAX`: comments removed, string literals
emptied, in the source's order. -/
def cleanDAX (l : List Char) : List Char :=
  let a := stripBlockComments (l.length + 1) l
  let b := stripLineComments (a.length + 1) a
  stripStringLits (b.length + 1) b

/-- The explicit preceding-character test of `_extractMeasureRefs`:
`beforeBracket !== '.' && !/\w/.test(beforeBracket) && beforeBracket !== "'"`
(negated here: `true` means the token is rejected). -/
def prevBlocks : Option Char → Bool
  | none => false
  | some c => c = '.' || isWordChar c || c = '\''

/-- Scanner for `/(?<!'[^']*)\[([^\]]+)\]/g` followed by the preceding-character
test.  `seenQuote` records whether any single quote occurred at an earlier
position of the cleaned text: the variable-length negative lookbehind
`(?<!'[^']*)` fails exactly when some earlier `'` has no later `'` before the
match position, i.e. whenever any `'` occurred at all. -/
def measureScan (fuel : Nat) (seenQuote : Bool) (prev : Option Char) :
    List Char → List String
  | [] => []
  | c :: rest =>
    match fuel with
    | 0 => []
    | fuel + 1 =>
      if c = '[' then
        match splitAtRBracket rest with
        | some (content, rest') =>
          if content = [] then measureScan fuel seenQuote (some '[') rest
          else
            let seen' := seenQuote || content.contains '\''
            if !seenQuote && !prevBlocks prev then
              jsTrim (String.mk content) :: measureScan fuel seen' (some ']') rest'
            else measureScan fuel seen' (some ']') rest'
        | none => measureScan fuel seenQuote (some '[') rest
      else measureScan fuel (seenQuote || c = '\'') (some c) rest

/-- Scanner for `/(?:'([^']+)'|(\w+))\[([^\]]+)\]/g` (column references). -/
def columnScan (fuel : Nat) : List Char → List ColumnRef
  | [] => []
  | c :: rest =>
    match fuel with
    | 0 => []
    | fuel + 1 =>
      if c = '\'' then
        match splitAtSQuote rest with
        | some (tbl, rest') =>
          if tbl = [] then columnScan fuel rest
          else
            match rest' with
            | '[' :: rest2 =>
              match splitAtRBracket rest2 with
              | some (content, rest3) =>
                if content = [] then columnScan fuel rest
                else
                  ⟨String.mk tbl, jsTrim (String.mk content)⟩ :: columnScan fuel rest3
              | none => columnScan fuel rest
            | _ => columnScan fuel rest
        | none => columnScan fuel rest
      else if isWordChar c then
        let p := takeWord (c :: rest)
        match p.2 with
        | '[' :: rest2 =>
          match splitAtRBracket rest2 with
          | some (content, rest3) =>
            if content = [] then columnScan fuel rest
            else ⟨String.mk p.1, jsTrim (String.mk content)⟩ :: columnScan fuel rest3
          | none => columnScan fuel rest
        | _ => columnScan fuel rest
      else columnScan fuel rest

/-- The table-scan function names of `_extractTableRefs`, in the source's
alternation order. -/
def tableFnNames : List String :=
  ["COUNTROWS", "RELATEDTABLE", "VALUES", "ALL", "DISTINCT", "SUMMARIZE",
   "ADDCOLUMNS", "SELECTCOLUMNS", "FILTER", "CALCULATETABLE", "TOPN",
   "GENERATE", "NATURALLEFTOUTERJOIN", "NATURALINNERJOIN", "CROSSJOIN",
   "UNION", "INTERSECT", "EXCEPT", "TREATAS"]

/-- After a matched function name: `\s*\(\s*(?:'([^']+)'|(\w+))\s*(?:[,)])`. -/
def tableFnArg (l : List Char) : Option (List Char × List Char) :=
  match skipWS l with
  | '(' :: l2 =>
    let l3 := skipWS l2
    match l3 with
    | '\'' :: r =>
      match splitAtSQuote r with
      | some (tbl, r') =>
        if tbl = [] then none
        else
          match skipWS r' with
          | ',' :: rest => some (tbl, rest)
          | ')' :: rest => some (tbl, rest)
          | _ => none
      | none => none
    | _ =>
      let p := takeWord l3
      if p.1 = [] then none
      else
        match skipWS p.2 with
        | ',' :: rest => some (p.1, rest)
        | ')' :: rest => some (p.1, rest)
        | _ => none
  | _ => none

/-- Try each function name (case-insensitively) at the current position. -/
def tryTableFns : List String → List Char → Option (List Char × List Char)
  | [], _ => none
  | n :: ns, l =>
    match matchCI n.toList l with
    | some l' =>
      match tableFnArg l' with
      | some r => some r
      | none => tryTableFns ns l
    | none => tryTableFns ns l

/-- Scanner for the table-reference regex of `_extractTableRefs`. -/
def tableScan (fuel : Nat) : List Char → List String
  | [] => []
  | c :: rest =>
    match fuel with
    | 0 => []
    | fuel + 1 =>
      match tryTableFns tableFnNames (c :: rest) with
      | some (tbl, rest') => String.mk tbl :: tableScan fuel rest'
      | none => tableScan fuel rest

/-- Source `DAXReferenceExtractor.extract` (`tmdl-parser.js`): `null`/`undefined` and
the empty string short-circuit to empty reference lists. -/
def extract (dax : Option String) : DAXResult :=
  match dax with
  | none => ⟨[], [], []⟩
  | some s =>
    if s = "" then ⟨[], [], []⟩
    else
      let cleaned := cleanDAX s.toList
      ⟨dedupBy id (measureScan (cleaned.length + 1) false none cleaned),
       dedupBy colKey (columnScan (cleaned.length + 1) cleaned),
       dedupBy id (tableScan (cleaned.length + 1) cleaned)⟩

end DAXReferenceExtractor

example :
    (DAXReferenceExtractor.extract (some "[Sales Amount] + 0")).measureRefs
      = ["Sales Amount"] := by decide

example :
    (DAXReferenceExtractor.extract (some "SUM(Sales[Amount]) + 'Sales Table'[Amount]")).columnRefs
      = [⟨"Sales", "Amount"⟩, ⟨"Sales Table", "Amount"⟩] := by decide

example :
    (DAXReferenceExtractor.extract (some "COUNTROWS(Sales) + FILTER('Big T', 1)")).tableRefs
      = ["Sales", "Big T"] := by decide

example :
    (DAXReferenceExtractor.extract (some "'T'[C] + [M]")).measureRefs = [] := by
  decide

/-! ## M expression parser (`m-parser.js`, class `MExpressionParser`) -/

/-- A captured connector argument: a string literal `"…"` or a parameter
reference `#"…"`. -/
inductive MArg where
  | lit (s : String)
  | ref (s : String)
deriving DecidableEq

/-- A data-source descriptor (`m-parser.js`).  Absent JavaScript properties are
`none`. -/
structure DataSource where
  type : String
  server : Option String := none
  database : Option String := none
  url : Option String := none
  path : Option String := none
  parameterized : Bool := false
  parameters : Option (List String) := none
  serverResolved : Option String := none
  databaseResolved : Option String := none
  urlResolved : Option String := none
  pathResolved : Option String := none
  gatewayRequired : Option Bool := none
  tableName : Option String := none
  partitionName : Option String := none
deriving DecidableEq

namespace MExpressionParser

/-- Source `match[lit] || match[ref] || null` on a captured argument: the capture is
kept only when it is a nonempty string. -/
def argVal : Option MArg → Option String
  | some (.lit s) => if s = "" then none else some s
  | some (.ref s) => if s = "" then none else some s
  | none => none

/-- Source `!!match[refGroup]`: the argument is a truthy parameter reference. -/
def argIsRef : Option MArg → Bool
  | some (.ref s) => s ≠ ""
  | _ => false

/-- The referenced name of a truthy parameter reference, if any. -/
def refName : Option MArg → Option String
  | some (.ref s) => if s = "" then none else some s
  | _ => none

/-- Parse one argument `("([^"]*)"|\#"([^"]*)")` at the current position. -/
def parseArg : List Char → Option (MArg × List Char)
  | '"' :: r => (splitAtDQuote r).map (fun p => (.lit (String.mk p.1), p.2))
  | '#' :: '"' :: r => (splitAtDQuote r).map (fun p => (.ref (String.mk p.1), p.2))
  | _ => none

/-- Source `\s*\(\s*` at the current position. -/
def openParen (l : List Char) : Option (List Char) :=
  match skipWS l with
  | '(' :: r => some (skipWS r)
  | _ => none

/-- Head + `\s*\(\s*ARG`. -/
def tryOne (heads : List String) (l : List Char) :
    Option ((Option MArg × Option MArg) × List Char) := do
  let l1 ← matchHeads heads l
  let l2 ← openParen l1
  let (a, r) ← parseArg l2
  return ((some a, none), r)

/-- Head + `\s*\(\s*ARG?` (the argument is optional). -/
def tryOneOpt (heads : List String) (l : List Char) :
    Option ((Option MArg × Option MArg) × List Char) := do
  let l1 ← matchHeads heads l
  let l2 ← openParen l1
  match parseArg l2 with
  | some (a, r) => return ((some a, none), r)
  | none => return ((none, none), l2)

/-- Head + `\s*\(\s*ARG\s*(?:,\s*ARG)?` (optional second argument). -/
def tryTwoOpt (heads : List String) (l : List Char) :
    Option ((Option MArg × Option MArg) × List Char) := do
  let l1 ← matchHeads heads l
  let l2 ← openParen l1
  let (a1, r1) ← parseArg l2
  let r2 := skipWS r1
  match r2 with
  | ',' :: r3 =>
    match parseArg (skipWS r3) with
    | some (a2, r4) => return ((some a1, some a2), r4)
    | none => return ((some a1, none), r2)
  | _ => return ((some a1, none), r2)

/-- Head + `\s*\(\s*ARG\s*,\s*ARG` (mandatory second argument). -/
def tryTwoMand (heads : List String) (l : List Char) :
    Option ((Option MArg × Option MArg) × List Char) := do
  let l1 ← matchHeads heads l
  let l2 ← openParen l1
  let (a1, r1) ← parseArg l2
  match skipWS r1 with
  | ',' :: r3 => do
    let (a2, r4) ← parseArg (skipWS r3)
    return ((some a1, some a2), r4)
  | _ => none

/-- Head + `\s*\(` only (connectors captured without arguments). -/
def tryZero (heads : List String) (l : List Char) :
    Option ((Option MArg × Option MArg) × List Char) := do
  let l1 ← matchHeads heads l
  match skipWS l1 with
  | '(' :: r => return ((none, none), r)
  | _ => none

/-- Source `OUTER\s*\(\s*INNER\s*\(\s*ARG` (`Excel.Workbook(File.Contents(…))` and
`Csv.Document(File.Contents(…))`). -/
def tryNested (outer inner : String) (l : List Char) :
    Option ((Option MArg × Option MArg) × List Char) := do
  let l1 ← matchHeads [outer] l
  let l2 ← openParen l1
  let l3 ← matchHeads [inner] l2
  let l4 ← openParen l3
  let (a, r) ← parseArg l4
  return ((some a, none), r)

/-- Global-regex scan: at each position try the pattern; on success continue
after the match, otherwise advance one character. -/
def scanWith (try1 : List Char → Option ((Option MArg × Option MArg) × List Char))
    (fuel : Nat) : List Char → List (Option MArg × Option MArg)
  | [] => []
  | c :: rest =>
    match fuel with
    | 0 => []
    | fuel + 1 =>
      match try1 (c :: rest) with
      | some (a, rest') => a :: scanWith try1 fuel rest'
      | none => scanWith try1 fuel rest

/-- Scan the whole stream (fuel `length + 1` covers every position, as every
match consumes at least its nonempty head). -/
def scanAll (try1 : List Char → Option ((Option MArg × Option MArg) × List Char))
    (l : List Char) : List (Option MArg × Option MArg) :=
  scanWith try1 (l.length + 1) l

/-- Source `MExpressionParser._extractParameterRefs`: scan for `/#"([^"]+)"/g`, keeping
a name only when `declaredParams` is undefined (`none`) or contains it. -/
def paramRefScan (declared : Option (List String)) (fuel : Nat) :
    List Char → List String
  | [] => []
  | c :: rest =>
    match fuel with
    | 0 => []
    | fuel + 1 =>
      match c :: rest with
      | '#' :: '"' :: r =>
        match splitAtDQuote r with
        | some (content, r') =>
          if content = [] then paramRefScan declared fuel rest
          else
            let name := String.mk content
            let keep := match declared with
              | none => true
              | some dp => dp.contains name
            if keep then name :: paramRefScan declared fuel r'
            else paramRefScan declared fuel r'
        | none => paramRefScan declared fuel rest
      | _ => paramRefScan declared fuel rest

/-- Source `_extractParameterRefs(mExpression, declaredParams)`. -/
def extractParameterRefs (declared : Option (List String)) (l : List Char) :
    List String :=
  paramRefScan declared (l.length + 1) l

/-- Constructor for a SQL Server match: the only connector whose
`parameterized` flag also consults the expression-wide parameter references. -/
def mkSql (isParameterized : Bool) (m : Option MArg × Option MArg) : DataSource :=
  { type := "SQL Server", server := argVal m.1, database := argVal m.2,
    parameterized := isParameterized || argIsRef m.1 || argIsRef m.2,
    parameters :=
      match refName m.1 with
      | some s => some [s]
      | none =>
        match refName m.2 with
        | some s => some [s]
        | none => none }

/-- Constructor for a two-argument server/database connector. -/
def mkServerDb (ty : String) (m : Option MArg × Option MArg) : DataSource :=
  { type := ty, server := argVal m.1, database := argVal m.2,
    parameterized := argIsRef m.1 || argIsRef m.2 }

/-- Constructor for a single-URL connector. -/
def mkUrl (ty : String) (m : Option MArg × Option MArg) : DataSource :=
  { type := ty, url := argVal m.1, parameterized := argIsRef m.1 }

/-- Constructor for a single-path (file) connector. -/
def mkPath (ty : String) (m : Option MArg × Option MArg) : DataSource :=
  { type := ty, path := argVal m.1, parameterized := argIsRef m.1 }

/-- Constructor for a single-server connector. -/
def mkServer (ty : String) (m : Option MArg × Option MArg) : DataSource :=
  { type := ty, server := argVal m.1, parameterized := argIsRef m.1 }

/-- Constructor for an argument-less connector. -/
def mkBare (ty : String) (_ : Option MArg × Option MArg) : DataSource :=
  { type := ty, parameterized := false }

/-- Source `MExpressionParser.extractDataSources(mExpression)` (`m-parser.js`).
`declaredParams` models the static `MExpressionParser._declaredParams`
(`none` before any `extractAllFromModel` call).  The connector patterns are
matched independently over the whole expression, in the source's order. -/
def extractDataSources (declaredParams : Option (List String))
    (mExpression : Option String) : List DataSource :=
  match mExpression with
  | none => []
  | some s =>
    if s = "" then []
    else
      let l := s.toList
      let paramRefs := extractParameterRefs declaredParams l
      let isParameterized := paramRefs ≠ []
      (scanAll (tryTwoOpt ["Sql.Databases", "Sql.Database"]) l).map (mkSql isParameterized)
      ++ (scanAll (tryTwoOpt ["AnalysisServices.Database"]) l).map (mkServerDb "Analysis Services")
      ++ (scanAll (tryOne ["OData.Feed"]) l).map (mkUrl "OData")
      ++ (scanAll (tryOne ["Web.Contents"]) l).map (mkUrl "Web")
      ++ (scanAll (tryOne ["SharePoint.Tables"]) l).map (mkUrl "SharePoint Tables")
      ++ (scanAll (tryOne ["SharePoint.Files"]) l).map (mkUrl "SharePoint Files")
      ++ (scanAll (tryNested "Excel.Workbook" "File.Contents") l).map (mkPath "Excel")
      ++ (scanAll (tryNested "Csv.Document" "File.Contents") l).map (mkPath "CSV")
      ++ (scanAll (tryOne ["AzureStorage.Blobs"]) l).map (mkUrl "Azure Blob Storage")
      ++ (scanAll (tryOneOpt ["Dataverse.Contents"]) l).map (mkUrl "Dataverse")
      ++ (scanAll (tryTwoOpt ["Snowflake.Databases"]) l).map (mkServerDb "Snowflake")
      ++ (scanAll (tryOne ["Oracle.Database"]) l).map (mkServer "Oracle")
      ++ (scanAll (tryOneOpt ["GoogleBigQuery.Database"]) l).map (mkServer "Google BigQuery")
      ++ (scanAll (tryTwoMand ["PostgreSQL.Database"]) l).map (mkServerDb "PostgreSQL")
      ++ (scanAll (tryTwoMand ["MySQL.Database"]) l).map (mkServerDb "MySQL")
      ++ (scanAll (tryOne ["Teradata.Database"]) l).map (mkServer "Teradata")
      ++ (scanAll (tryOne ["SapHana.Database"]) l).map (mkServer "SAP HANA")
      ++ (scanAll (tryOne ["Odbc.DataSource", "Odbc.Query"]) l).map (mkServer "ODBC")
      ++ (scanAll (tryZero ["PowerBI.Dataflows"]) l).map (mkBare "Power BI Dataflow")
      ++ (scanAll (tryTwoOpt ["AzureDataExplorer.Contents", "Kusto.Contents"]) l).map (mkServerDb "Azure Data Explorer")
      ++ (scanAll (tryZero ["Lakehouse.Contents"]) l).map (mkBare "Fabric Lakehouse")
      ++ (scanAll (tryOne ["Fabric.Warehouse"]) l).map (mkServer "Fabric Warehouse")
      ++ (scanAll (tryOne ["Databricks.Catalogs"]) l).map (mkServer "Databricks")

end MExpressionParser

example :
    MExpressionParser.extractDataSources none (some "Sql.Database(\"srv01\",\"db1\")")
      = [{ type := "SQL Server", server := some "srv01", database := some "db1",
           parameterized := false }] := by decide

example :
    MExpressionParser.extractDataSources none
        (some "Sql.Database(#\"Server Param\",\"db1\")")
      = [{ type := "SQL Server", server := some "Server Param",
           database := some "db1", parameterized := true,
           parameters := some ["Server Param"] }] := by decide

/-! ## Parameter resolution, dedup, gateway (`m-parser.js`, continued) -/

/-- A shared model expression (`parsedModel.expressions` entry). -/
structure Expression where
  name : String
  kind : Option String := none
  expression : Option String := none
deriving DecidableEq

namespace MExpressionParser

/-- Source `/IsParameterQuery\s*=\s*true/i.test(text)`. -/
def isParamQueryAt (l : List Char) : Bool :=
  match matchCI "IsParameterQuery".toList l with
  | some r1 =>
    match skipWS r1 with
    | '=' :: r2 =>
      (matchCI "true".toList (skipWS r2)).isSome
    | _ => false
  | none => false

/-- Search every position for the `IsParameterQuery` marker. -/
def isParamQueryScan : List Char → Bool
  | [] => false
  | c :: rest => isParamQueryAt (c :: rest) || isParamQueryScan rest

/-- Try `/"([^"]+)"\s*meta\s*\[/` at the current position. -/
def paramValueAt (l : List Char) : Option String :=
  match l with
  | '"' :: r =>
    match splitAtDQuote r with
    | some (content, r') =>
      if content = [] then none
      else
        match matchLit "meta".toList (skipWS r') with
        | some r'' =>
          match skipWS r'' with
          | '[' :: _ => some (String.mk content)
          | _ => none
        | none => none
    | none => none
  | _ => none

/-- First match of `/"([^"]+)"\s*meta\s*\[/` over the expression body. -/
def findParamValue : List Char → Option String
  | [] => none
  | c :: rest =>
    match paramValueAt (c :: rest) with
    | some v => some v
    | none => findParamValue rest

/-- JavaScript `Map.set`: overwrite in place, keep the original position. -/
def mapSet (m : List (String × String)) (k v : String) : List (String × String) :=
  if m.any (fun p => p.1 = k) then
    m.map (fun p => if p.1 = k then (k, v) else p)
  else m ++ [(k, v)]

/-- JavaScript `Map.get` (unique keys). -/
def mapGet (m : List (String × String)) (k : String) : Option String :=
  (m.find? (fun p => p.1 = k)).map (·.2)

/-- The `paramMap` built by `resolveParameters`: parameter-query expressions
whose body yields a `"value" meta [` literal. -/
def buildParamMap (expressions : List Expression) : List (String × String) :=
  expressions.foldl
    (fun acc e =>
      match e.expression with
      | some ex =>
        if ex ≠ "" && isParamQueryScan ex.toList then
          match findParamValue ex.toList with
          | some v => mapSet acc e.name v
          | none => acc
        else acc
      | none => acc)
    []

/-- Resolve one source against the parameter map (`resolveParameters` body). -/
def resolveOne (paramMap : List (String × String)) (s : DataSource) : DataSource :=
  let s1 := match s.server with
    | some v => if v ≠ "" then
        match mapGet paramMap v with
        | some r => { s with serverResolved := some r }
        | none => s
      else s
    | none => s
  let s2 := match s1.database with
    | some v => if v ≠ "" then
        match mapGet paramMap v with
        | some r => { s1 with databaseResolved := some r }
        | none => s1
      else s1
    | none => s1
  let s3 := match s2.url with
    | some v => if v ≠ "" then
        match mapGet paramMap v with
        | some r => { s2 with urlResolved := some r }
        | none => s2
      else s2
    | none => s2
  let s4 := match s3.path with
    | some v => if v ≠ "" then
        match mapGet paramMap v with
        | some r => { s3 with pathResolved := some r }
        | none => s3
      else s3
    | none => s3
  match s4.parameters with
  | some ps =>
    ps.foldl
      (fun acc p =>
        match mapGet paramMap p with
        | some r =>
          if !truthy acc.server && acc.serverResolved = none then
            { acc with serverResolved := some r }
          else acc
        | none => acc)
      s4
  | none => s4

/-- Source `MExpressionParser.resolveParameters(sources, expressions)`. -/
def resolveParameters (sources : List DataSource)
    (expressions : List Expression) : List DataSource :=
  if expressions = [] then sources
  else sources.map (resolveOne (buildParamMap expressions))

/-- Source `MExpressionParser._sourceKey(source)`: lowercase
`type|server|database|url|path` over the truthy fields. -/
def sourceKey (s : DataSource) : String :=
  let parts := [s.type]
    ++ (if truthy s.server then [s.server.getD ""] else [])
    ++ (if truthy s.database then [s.database.getD ""] else [])
    ++ (if truthy s.url then [s.url.getD ""] else [])
    ++ (if truthy s.path then [s.path.getD ""] else [])
  let joined := match parts with
    | [] => ""
    | h :: t => t.foldl (fun acc x => acc ++ "|" ++ x) h
  String.mk (joined.toList.map Char.toLower)

/-- Source `MExpressionParser.deduplicateSources`: first occurrence per key wins. -/
def deduplicateSources (allSources : List DataSource) : List DataSource :=
  dedupBy sourceKey allSources

/-- The on-premises-capable connector list of `_requiresGateway`. -/
def onPremConnectors : List String :=
  ["SQL Server", "Oracle", "Teradata", "SAP HANA", "ODBC", "Analysis Services"]

/-- The always-cloud connector list of `_requiresGateway`. -/
def cloudConnectors : List String :=
  ["Azure Blob Storage", "Dataverse", "Snowflake", "Google BigQuery",
   "Power BI Dataflow", "OData", "SharePoint Tables", "SharePoint Files",
   "Fabric Lakehouse", "Fabric Warehouse", "Azure Data Explorer", "Databricks",
   "Web", "MySQL", "PostgreSQL"]

/-- Source `MExpressionParser._requiresGateway(source)`: `some b` for a decided
boolean, `none` for the JavaScript `null` ("unknown"). -/
def requiresGateway (source : DataSource) : Option Bool :=
  if onPremConnectors.contains source.type then
    let server := jsOrStr source.serverResolved source.server
    let isCloud := hasInfixCI server ".database.windows.net"
      || hasInfixCI server ".sql.azuresynapse.net"
      || hasInfixCI server ".datawarehouse.fabric.microsoft.com"
      || hasInfixCI server ".pbidedicated.windows.net"
      || hasInfixCI server ".asazure.windows.net"
    some (!isCloud)
  else if ["Excel", "CSV"].contains source.type then
    let path := source.path.getD ""
    some (!(hasInfixCI path "sharepoint" || hasInfixCI path "onedrive"))
  else if cloudConnectors.contains source.type then some false
  else none

/-- The declared-parameter set built at the top of `extractAllFromModel` (and
stored into the static `MExpressionParser._declaredParams`). -/
def declaredParams (expressions : List Expression) : List String :=
  (expressions.filter
      (fun e => match e.expression with
        | some ex => ex ≠ "" && isParamQueryScan ex.toList
        | none => false)).map (·.name)

end MExpressionParser

/-! ## The parsed model (`tmdl-parser.js` output structures) -/

/-- A table column. -/
structure Column where
  name : String
  description : Option String := none
  dataType : Option String := none
  formatString : Option String := none
  isHidden : Bool := false
  sourceColumn : Option String := none
  summarizeBy : Option String := none
  expression : Option String := none
deriving DecidableEq

/-- A measure. -/
structure Measure where
  name : String
  description : Option String := none
  expression : Option String := none
  displayFolder : Option String := none
  formatString : Option String := none
  dataCategory : Option String := none
deriving DecidableEq

/-- A hierarchy level. -/
structure HierLevel where
  name : String
  column : Option String := none
  ordinal : Option String := none
deriving DecidableEq

/-- A hierarchy. -/
structure Hierarchy where
  name : String
  description : Option String := none
  levels : List HierLevel := []
deriving DecidableEq

/-- A table partition. -/
structure Partition where
  name : String
  mode : Option String := none
  source : Option String := none
  sourceType : Option String := none
deriving DecidableEq

/-- A calculation-group item. -/
structure CalcItem where
  name : String
  expression : Option String := none
deriving DecidableEq

/-- A calculation group. -/
structure CalculationGroup where
  items : List CalcItem := []
deriving DecidableEq

/-- A table (`parseTable` result; the name starts out `null`). -/
structure Table where
  name : Option String := none
  description : Option String := none
  isHidden : Bool := false
  columns : List Column := []
  measures : List Measure := []
  hierarchies : List Hierarchy := []
  partitions : List Partition := []
  calculationGroup : Option CalculationGroup := none
deriving DecidableEq

/-- The parts of the parsed model consumed by the M parser and the lineage
engine. -/
structure ParsedModel where
  tables : List Table := []
  expressions : List Expression := []
deriving DecidableEq

namespace MExpressionParser

/-- Source `MExpressionParser.extractAllFromModel(parsedModel)`: collect every
partition's sources (tagged with table/partition names), resolve parameters,
attach gateway classification, deduplicate.  The declared-parameter set is the
one the JavaScript stores into the static `_declaredParams`. -/
def extractAllFromModel (parsedModel : ParsedModel) : List DataSource :=
  let dp := declaredParams parsedModel.expressions
  let allSources := parsedModel.tables.flatMap (fun t =>
    t.partitions.flatMap (fun p =>
      if truthy p.source then
        (extractDataSources (some dp) p.source).map
          (fun s => { s with tableName := some (jsShow t.name),
                             partitionName := some p.name })
      else []))
  let resolved := resolveParameters allSources parsedModel.expressions
  let withGw := resolved.map (fun s =>
    match requiresGateway s with
    | some b => { s with gatewayRequired := some b }
    | none => s)
  deduplicateSources withGw

end MExpressionParser

/-! ## TMDL table parser (`tmdl-parser.js`, class `TMDLParser`) -/

namespace TMDLParser

/-- Source `content.split('\n')`. -/
def splitNL : List Char → List (List Char)
  | [] => [[]]
  | c :: rest =>
    if c = '\n' then [] :: splitNL rest
    else
      match splitNL rest with
      | h :: t => (c :: h) :: t
      | [] => [[c]]

/-- Source `line.search(/\S/)`: index of the first non-whitespace character, `-1` when
none. -/
def jsSearchNonWSAux : Nat → List Char → Int
  | _, [] => -1
  | i, c :: rest => if isJsWS c then jsSearchNonWSAux (i + 1) rest else (i : Int)

def jsSearchNonWS (s : String) : Int := jsSearchNonWSAux 0 s.toList

/-- Source `a.startsWith(b)`. -/
def strStarts (s pre : String) : Bool := (matchLit pre.toList s.toList).isSome

/-- Source `s.includes(c)` for a single character. -/
def strHasChar (s : String) (c : Char) : Bool := s.toList.contains c

/-- Source `s.indexOf(c)` for a single character (`-1` when absent, as `Option`). -/
def idxOfChar (s : String) (c : Char) : Option Nat :=
  (s.toList.findIdx? (· = c))

/-- Source `s.substring(i)` (suffix from character index `i`). -/
def strDrop (s : String) (i : Nat) : String := String.mk (s.toList.drop i)

/-- Source `s.substring(0, i)` (prefix of `i` characters). -/
def strTake (s : String) (i : Nat) : String := String.mk (s.toList.take i)

/-- Source `trimmed.split('=')` then `.slice(1).join('=')`: everything after the
first `=`. -/
def afterFirstEq (s : String) : Option String :=
  (idxOfChar s '=').map (fun i => strDrop s (i + 1))

/-- The object keywords of `_detectObjectType`, in order. -/
def objectTypes : List String :=
  ["column", "measure", "hierarchy", "partition", "calculationGroup",
   "calculationItem", "level", "role"]

/-- Source `TMDLParser._detectObjectType(line)`. -/
def detectObjectType (line : String) : Option String :=
  objectTypes.find? (fun ty => strStarts line (ty ++ " ") || strStarts line (ty ++ "\t"))

/-- Source `TMDLParser._extractName(line, keyword)`. -/
def extractName (line keyword : String) : String :=
  let afterKeyword := jsTrim (strDrop line keyword.length)
  let nameStr := match idxOfChar afterKeyword '=' with
    | some i => jsTrim (strTake afterKeyword i)
    | none => afterKeyword
  match nameStr.toList with
  | '\'' :: rest =>
    match splitAtSQuote rest with
    | some (content, _) =>
      if content = [] then firstToken nameStr else String.mk content
    | none => firstToken nameStr
  | _ => firstToken nameStr
where
  /-- `nameStr.split(/\s/)[0] || nameStr`. -/
  firstToken (nameStr : String) : String :=
    let tok := String.mk (nameStr.toList.takeWhile (fun c => !isJsWS c))
    if tok = "" then nameStr else tok

/-- Leading-whitespace count (`l.match(/^(\s*)/)[1].length`). -/
def leadWS (s : String) : Nat := (s.toList.takeWhile isJsWS).length

/-- Minimum over a nonempty list (JavaScript `Math.min(...xs)`). -/
def natMin : List Nat → Nat
  | [] => 0
  | h :: t => t.foldl min h

/-- Drop leading lines whose trim is empty (the `shift()` loop). -/
def dropLeadEmpty (l : List String) : List String :=
  l.dropWhile (fun s => jsTrim s = "")

/-- Drop trailing lines whose trim is empty (the `pop()` loop). -/
def dropTrailEmpty (l : List String) : List String :=
  (l.reverse.dropWhile (fun s => jsTrim s = "")).reverse

/-- Source `lines.join('\n')`. -/
def joinNL : List String → String
  | [] => ""
  | h :: t => t.foldl (fun acc x => acc ++ "\n" ++ x) h

/-- Source `TMDLParser._cleanExpression(lines)`: dedent by the minimum common leading
whitespace of the non-blank lines, blank lines become empty, leading/trailing
blank lines are stripped. -/
def cleanExpression (lines : List String) : Option String :=
  if lines = [] then none
  else
    let nonEmpty := lines.filter (fun l => jsTrim l ≠ "")
    if nonEmpty = [] then none
    else
      let minIndent := natMin (nonEmpty.map leadWS)
      let cleaned := lines.map (fun l =>
        if jsTrim l = "" then "" else strDrop l (min minIndent (leadWS l)))
      some (joinNL (dropTrailEmpty (dropLeadEmpty cleaned)))

/-- The in-progress object of the `parseTable` state machine. -/
structure PTObject where
  type : String
  name : String
  description : Option String := none
  properties : List (String × String) := []
deriving DecidableEq

/-- Property read (JavaScript object: the last assignment wins). -/
def getProp (props : List (String × String)) (k : String) : Option String :=
  ((props.reverse).find? (fun p => p.1 = k)).map (·.2)

/-- The mutable locals of the `parseTable` loop. -/
structure PTState where
  table : Table
  state : String
  currentObject : Option PTObject := none
  currentExpression : List String := []
  pendingDescription : Option String := none
  baseIndent : Int := 0
  inBacktickBlock : Bool := false
deriving DecidableEq

/-- Source `TMDLParser._finishCurrentObject`: fold the finished object into the
table.  The current object is left as-is by the JavaScript (callers reset it
separately). -/
def finishCurrentObject (currentObject : Option PTObject)
    (currentExpression : List String) (table : Table) : Table :=
  match currentObject with
  | none => table
  | some obj =>
    let expressionText :=
      if currentExpression ≠ [] then cleanExpression currentExpression else none
    if obj.type = "column" then
      { table with columns := table.columns ++
          [{ name := obj.name, description := obj.description,
             dataType := getProp obj.properties "dataType",
             formatString := getProp obj.properties "formatString",
             isHidden := getProp obj.properties "isHidden" = some "true",
             sourceColumn := getProp obj.properties "sourceColumn",
             summarizeBy := getProp obj.properties "summarizeBy",
             expression := expressionText }] }
    else if obj.type = "measure" then
      { table with measures := table.measures ++
          [{ name := obj.name, description := obj.description,
             expression := expressionText,
             displayFolder := getProp obj.properties "displayFolder",
             formatString := getProp obj.properties "formatString",
             dataCategory := getProp obj.properties "dataCategory" }] }
    else if obj.type = "hierarchy" then
      { table with hierarchies := table.hierarchies ++
          [{ name := obj.name, description := obj.description, levels := [] }] }
    else if obj.type = "level" then
      match table.hierarchies.reverse with
      | [] => table
      | h :: rest =>
        { table with hierarchies :=
            (({ h with levels := h.levels ++
                [{ name := obj.name, column := getProp obj.properties "column",
                   ordinal := getProp obj.properties "ordinal" }] }) :: rest).reverse }
    else if obj.type = "partition" then
      { table with partitions := table.partitions ++
          [{ name := obj.name, mode := getProp obj.properties "mode",
             source := expressionText,
             sourceType := getProp obj.properties "type" }] }
    else if obj.type = "calculationGroup" then
      { table with calculationGroup := some ({ items := [] } : CalculationGroup) }
    else if obj.type = "calculationItem" then
      match table.calculationGroup with
      | some cg =>
        let cg' : CalculationGroup :=
          { items := cg.items ++ [{ name := obj.name, expression := expressionText }] }
        { table with calculationGroup := some cg' }
      | none => table
    else table

/-- Source `/^(?:expression|source)\s*=/.test(trimmed)`. -/
def startsExprAssign (trimmed : String) : Bool :=
  (checkAfter "expression") || (checkAfter "source")
where
  checkAfter (kw : String) : Bool :=
    match matchLit kw.toList trimmed.toList with
    | some rest =>
      match skipWS rest with
      | '=' :: _ => true
      | _ => false
    | none => false

/-- The property-handling tail of the `parseTable` loop body (also reached by
falling out of the `EXPRESSION` state). -/
def propStep (st : PTState) (trimmed : String) (indent : Int) : PTState :=
  if (st.state = "PROPERTIES" || st.state = "TABLE_BODY")
      && indent > st.baseIndent && strHasChar trimmed ':' then
    if startsExprAssign trimmed then
      let afterEq := jsTrim ((afterFirstEq trimmed).getD trimmed)
      { st with
        currentExpression :=
          if afterEq ≠ "" then st.currentExpression ++ [afterEq]
          else st.currentExpression,
        state := "EXPRESSION" }
    else
      match idxOfChar trimmed ':' with
      | some colonIndex =>
        let key := jsTrim (strTake trimmed colonIndex)
        let value := jsTrim (strDrop trimmed (colonIndex + 1))
        if st.state = "TABLE_BODY" && st.currentObject = none then
          if key = "isHidden" then
            { st with table := { st.table with isHidden := value = "true" } }
          else st
        else
          match st.currentObject with
          | some obj =>
            let obj' : PTObject :=
              { obj with properties := obj.properties ++ [(key, value)] }
            { st with currentObject := some obj' }
          | none => st
      | none => st
  else if (st.state = "PROPERTIES" || st.state = "TABLE_BODY")
      && indent > st.baseIndent
      && (strStarts trimmed "annotation" || strStarts trimmed "extendedProperty") then
    st
  else if (st.state = "PROPERTIES" || st.state = "TABLE_BODY")
      && st.currentObject ≠ none && indent > st.baseIndent
      && strStarts trimmed "=" then
    let afterEq := jsTrim (strDrop trimmed 1)
    { st with
      currentExpression :=
        if afterEq ≠ "" then st.currentExpression ++ [afterEq]
        else st.currentExpression,
      state := "EXPRESSION" }
  else st

/-- One iteration of the `parseTable` line loop. -/
def processLine (st : PTState) (line : String) : PTState :=
  let trimmed := jsTrim line
  let indent := jsSearchNonWS line
  if trimmed = "```" then
    { st with
      inBacktickBlock := !st.inBacktickBlock,
      currentExpression :=
        if st.state = "EXPRESSION" then st.currentExpression ++ [trimmed]
        else st.currentExpression }
  else if st.inBacktickBlock && st.state = "EXPRESSION" then
    { st with currentExpression := st.currentExpression ++ [line] }
  else if strStarts trimmed "///" then
    let descText := jsTrim (strDrop trimmed 3)
    let desc :=
      if truthy st.pendingDescription then
        st.pendingDescription.getD "" ++ "\n" ++ descText
      else descText
    { st with pendingDescription := some desc }
  else if strStarts trimmed "//" || trimmed = "" then st
  else if indent = 0 && strStarts trimmed "table" then
    let table1 := finishCurrentObject st.currentObject st.currentExpression st.table
    let table2 := { table1 with name := some (extractName trimmed "table") }
    let table3 :=
      if truthy st.pendingDescription then
        { table2 with description := st.pendingDescription }
      else table2
    { st with
      table := table3,
      pendingDescription :=
        if truthy st.pendingDescription then none else st.pendingDescription,
      state := "TABLE_BODY", baseIndent := 0 }
  else if st.state ≠ "IDLE" && indent > 0 && indent ≤ 4 then
    match detectObjectType trimmed with
    | some objectType =>
      let table' := finishCurrentObject st.currentObject st.currentExpression st.table
      let name := extractName trimmed objectType
      let newObj : PTObject :=
        { type := objectType, name := name,
          description :=
            if truthy st.pendingDescription then st.pendingDescription else none,
          properties := [] }
      if strHasChar trimmed '=' then
        let afterEq := jsTrim ((afterFirstEq trimmed).getD "")
        { st with
          table := table', currentObject := some newObj,
          currentExpression := if afterEq ≠ "" then [afterEq] else [],
          pendingDescription := none, baseIndent := indent,
          state := "EXPRESSION" }
      else
        { st with
          table := table', currentObject := some newObj,
          currentExpression := [], pendingDescription := none,
          baseIndent := indent, state := "PROPERTIES" }
    | none =>
      if st.state = "EXPRESSION" then
        if indent > st.baseIndent || trimmed = "" then
          { st with currentExpression := st.currentExpression ++ [line] }
        else propStep { st with state := "PROPERTIES" } trimmed indent
      else propStep st trimmed indent
  else if st.state = "EXPRESSION" then
    if indent > st.baseIndent || trimmed = "" then
      { st with currentExpression := st.currentExpression ++ [line] }
    else propStep { st with state := "PROPERTIES" } trimmed indent
  else propStep st trimmed indent

/-- Source `TMDLParser.parseTable(content, fileName)`. -/
def parseTable (content : String) : Table :=
  let lines := (splitNL content.toList).map String.mk
  let st0 : PTState :=
    { table := {}, state := "IDLE" }
  let stF := lines.foldl processLine st0
  finishCurrentObject stF.currentObject stF.currentExpression stF.table

end TMDLParser

/-- A table file whose measure expression holds a triple-backtick block with an
internal blank line and mixed indentation. -/
def backtickFile : String :=
  "table T\n\tmeasure M =\n\t\t```\n\t\tLINE1\n\n\t\t  LINE2\n\t\t```\n"

example :
    (TMDLParser.parseTable backtickFile).measures.map
        (fun m => (m.name, m.expression))
      = [("M", some "```\n\t\tLINE1\n\n\t\t  LINE2\n```")] := by decide

example :
    (TMDLParser.parseTable "table X\n\tisHidden: true\n\tcolumn C\n\t\tdataType: string\n").isHidden
      = true := by decide

/-! ## Lineage engine (`lineage-engine.js`, class `LineageEngine`) -/

/-- A field reference of a report visual (supplied by the external visual
parser). -/
structure VisualField where
  type : Option String := none
  table : Option String := none
  entity : Option String := none
  name : Option String := none
  column : Option String := none
  hierarchy : Option String := none
deriving DecidableEq

/-- One report visual. -/
structure Visual where
  pageName : String
  visualName : String
  visualType : Option String := none
  fields : List VisualField := []
deriving DecidableEq

/-- The visual field-usage structure (`VisualParser.parseReport` output). -/
structure VisualData where
  visuals : List Visual := []
deriving DecidableEq

/-- Source `const tableName = field.table || field.entity || ''`. -/
def fieldTableOf (f : VisualField) : String := jsOrStr f.table f.entity

/-- Source `const fieldName = field.name || field.column || field.hierarchy || ''`. -/
def fieldNameOf (f : VisualField) : String := jsOrStr3 f.name f.column f.hierarchy

/-- Source `const fName = field.name || field.column || ''` (the `getMeasureImpact`
variant, without the hierarchy fallback). -/
def fieldNameOf2 (f : VisualField) : String := jsOrStr f.name f.column

/-- Modelled from the spec: `DAXReferenceExtractor.buildMeasureLookup` is
called by `buildGraph` (`lineage-engine.js` line 35) but its definition is not
among the provided sources.  Per the spec (§4.2) it is "a model-wide
`measureName → definingTable` lookup built once from all tables' measures",
assuming globally unique measure names; per §9 two tables defining same-named
measures keep "whichever table was parsed last".  It is modelled as a map
built by inserting `(measure.name, table.name)` over all tables in order, a
later insertion overwriting an earlier one. -/
def buildMeasureLookup (tables : List Table) : List (String × String) :=
  tables.flatMap (fun t => t.measures.map (fun m => (m.name, jsShow t.name)))

/-- Source `measureLookup.get(name)` over the spec-modelled lookup (last insertion
wins). -/
def measureLookupGet (tables : List Table) (name : String) : Option String :=
  (((buildMeasureLookup tables).reverse).find? (fun p => p.1 = name)).map (·.2)

/-- Source `const t = measureLookup.get(name); if (t) …`: the lookup result followed
by the JavaScript truthiness check every call site performs. -/
def measureLookupTruthy (tables : List Table) (name : String) : Option String :=
  match measureLookupGet tables name with
  | some t => if t = "" then none else some t
  | none => none

/-- An entry of a resolved measure chain (`{name, table}`). -/
structure ChainEntry where
  name : String
  table : String
deriving DecidableEq

/-- The chain dedup key `` `${m.table}.${m.name}` ``. -/
def chainKey (e : ChainEntry) : String := e.table ++ "." ++ e.name

/-- The engine state fixed at construction (`constructor(parsedModel,
visualData, measureRefs)`).  `measureRefs` is the
`TMDLParser.extractAllReferences()` map, an insertion-ordered object. -/
structure LineageEngine where
  parsedModel : ParsedModel
  visualData : Option VisualData := none
  measureRefs : List (String × DAXResult) := []
deriving DecidableEq

namespace LineageEngine

/-- Source `this.measureRefs[name]` (object lookup; keys are unique). -/
def lookupRefs (E : LineageEngine) (name : String) : Option DAXResult :=
  (E.measureRefs.find? (fun p => p.1 = name)).map (·.2)

/-- The names (keys) of the `measureRefs` map. -/
def refKeys (E : LineageEngine) : List String := E.measureRefs.map Prod.fst

/-- Source `LineageEngine.resolveMeasureChain(measureName, visited)`, written with a
recursion-depth fuel.  Each recursive call strictly shrinks the set of
`measureRefs` keys not yet in `visited` (the key must be present for the
recursion to happen and is added to `visited` first), so any fuel of at least
`|keys ∉ visited| + 1` computes the exact fixpoint of the JavaScript
recursion; `resolveMeasureChain_fuel_sufficient` proves the fuel-independence.
Each branch passes the same extended `visited` (the JavaScript passes a fresh
copy `new Set(visited)` to every recursive call), and the memoization caches
are omitted: they are write-once per key over an immutable engine, hence
observationally transparent. -/
def resolveMeasureChainAux (E : LineageEngine) :
    Nat → String → List String → List ChainEntry
  | 0, _, _ => []
  | fuel + 1, measureName, visited =>
    if visited.contains measureName then []
    else
      match lookupRefs E measureName with
      | none => []
      | some refs =>
        dedupBy chainKey (refs.measureRefs.flatMap (fun refMeasure =>
          match measureLookupTruthy E.parsedModel.tables refMeasure with
          | none => []
          | some refTable =>
            ChainEntry.mk refMeasure refTable ::
              resolveMeasureChainAux E fuel refMeasure (measureName :: visited)))

/-- Source `LineageEngine.resolveMeasureChain(measureName)` with the canonical,
always-sufficient fuel. -/
def resolveMeasureChain (E : LineageEngine) (measureName : String)
    (visited : List String := []) : List ChainEntry :=
  resolveMeasureChainAux E (E.measureRefs.length + 1) measureName visited

/-- A visual hit of `getMeasureImpact` (`via` marks indirect hits). -/
structure ImpactVisual where
  name : String
  page : String
  type : Option String := none
  indirect : Bool := false
  via : Option String := none
deriving DecidableEq

/-- Source `getMeasureImpact` result `{ visuals, dependentMeasures }`. -/
structure MeasureImpact where
  visuals : List ImpactVisual := []
  dependentMeasures : List ChainEntry := []
deriving DecidableEq

/-- Source `LineageEngine.getMeasureImpact(measureName)`: a one-hop reverse search
over the `measureRefs` map, plus the visuals using the measure directly or via
a direct dependent.  The memoization cache is omitted (write-once per key over
an immutable engine). -/
def getMeasureImpact (E : LineageEngine) (measureName : String) : MeasureImpact :=
  match measureLookupTruthy E.parsedModel.tables measureName with
  | none => {}
  | some tableName =>
    let dependentMeasures := E.measureRefs.flatMap (fun p =>
      if p.2.measureRefs.contains measureName then
        match measureLookupTruthy E.parsedModel.tables p.1 with
        | some mTable => [ChainEntry.mk p.1 mTable]
        | none => []
      else [])
    let visuals :=
      match E.visualData with
      | none => []
      | some vd =>
        let direct := vd.visuals.filterMap (fun visual =>
          if visual.fields.any (fun field =>
              field.type = some "measure" && fieldNameOf2 field = measureName
                && fieldTableOf field = tableName) then
            some (ImpactVisual.mk visual.visualName visual.pageName
              visual.visualType false none)
          else none)
        dependentMeasures.foldl (fun acc dm =>
          vd.visuals.foldl (fun acc2 visual =>
            if acc2.any (fun v =>
                v.name = visual.visualName && v.page = visual.pageName) then acc2
            else if visual.fields.any (fun field =>
                field.type = some "measure" && fieldNameOf2 field = dm.name
                  && fieldTableOf field = dm.table) then
              acc2 ++ [ImpactVisual.mk visual.visualName visual.pageName
                visual.visualType true (some dm.name)]
            else acc2) acc) direct
    { visuals := visuals, dependentMeasures := dependentMeasures }

/-- A `{table, column}` item of a field-parameter table. -/
structure FPItem where
  table : String
  column : String
deriving DecidableEq

/-- Try `/NAMEOF\s*\(\s*'([^']+)'\[([^\]]+)\]\s*\)/i` at the current
position (returns the captures and the remainder). -/
def nameofAt (l : List Char) : Option (FPItem × List Char) := do
  let l1 ← matchCI "NAMEOF".toList l
  let l2 ← Pbip.MExpressionParser.openParen l1
  match l2 with
  | '\'' :: r =>
    match splitAtSQuote r with
    | some (tbl, r') =>
      if tbl = [] then none
      else
        match r' with
        | '[' :: r2 =>
          match splitAtRBracket r2 with
          | some (content, r3) =>
            if content = [] then none
            else
              match skipWS r3 with
              | ')' :: rest => some (⟨String.mk tbl, String.mk content⟩, rest)
              | _ => none
          | none => none
        | _ => none
    | none => none
  | _ => none

/-- Global scan for the `NAMEOF` pattern (`expr.matchAll`). -/
def nameofScan (fuel : Nat) : List Char → List FPItem
  | [] => []
  | c :: rest =>
    match fuel with
    | 0 => []
    | fuel + 1 =>
      match nameofAt (c :: rest) with
      | some (item, rest') => item :: nameofScan fuel rest'
      | none => nameofScan fuel rest

/-- Source `LineageEngine._getFieldParameterItems(tableName)`: `none` when the table
is absent or no expression matches `/NAMEOF|SWITCH/i`, otherwise the list of
NAMEOF captures (or `none` when that list is empty). -/
def getFieldParameterItems (E : LineageEngine) (tableName : String) :
    Option (List FPItem) :=
  match E.parsedModel.tables.find? (fun t => t.name = some tableName) with
  | none => none
  | some table =>
    let allExpressions :=
      (table.columns.filterMap (fun c =>
        if truthy c.expression then some (c.expression.getD "") else none))
      ++ (table.partitions.filterMap (fun p =>
        if truthy p.source then some (p.source.getD "") else none))
    let isFieldParam := allExpressions.any (fun e =>
      hasInfixCI e "NAMEOF" || hasInfixCI e "SWITCH")
    if !isFieldParam then none
    else
      let items := allExpressions.flatMap (fun e =>
        nameofScan (e.toList.length + 1) e.toList)
      if items ≠ [] then some items else none

/-- Source `LineageEngine._getCalculationGroupItems(tableName)`. -/
def getCalculationGroupItems (E : LineageEngine) (tableName : String) :
    Option (List CalcItem) :=
  match E.parsedModel.tables.find? (fun t => t.name = some tableName) with
  | none => none
  | some table =>
    match table.calculationGroup with
    | some cg => if cg.items = [] then none else some cg.items
    | none => none

/-- The `_calcGroupTables` set populated by `buildGraph` step 4. -/
def calcGroupTableNames (E : LineageEngine) : List String :=
  E.parsedModel.tables.filterMap (fun t =>
    if (getCalculationGroupItems E (jsShow t.name)).isSome then
      some (jsShow t.name)
    else none)

/-- The `_fieldParamTables` set populated by `buildGraph` step 4 (a calc-group
table is claimed first and `continue`d past the field-parameter check). -/
def fieldParamTableNames (E : LineageEngine) : List String :=
  E.parsedModel.tables.filterMap (fun t =>
    if (getCalculationGroupItems E (jsShow t.name)).isSome then none
    else if (getFieldParameterItems E (jsShow t.name)).isSome then
      some (jsShow t.name)
    else none)

/-- The `resolvedTables` computation shared by `buildGraph` step 4 and
`getVisualLineage`: when a NAMEOF target names a measure, follow that
measure's DAX references to its data tables. -/
def fpResolvedTables (E : LineageEngine) (column : String) : List String :=
  match measureLookupTruthy E.parsedModel.tables column with
  | none => []
  | some _ =>
    match lookupRefs E column with
    | some refs =>
      (refs.columnRefs.map (·.table) ++ refs.tableRefs).foldl setAdd []
    | none => []

/-- The engine's calls to `MExpressionParser.extractDataSources` happen after
`buildGraph` ran `extractAllFromModel`, which stored the model's declared
parameters into the static `_declaredParams`. -/
def engineExtractDS (E : LineageEngine) (src : Option String) : List DataSource :=
  MExpressionParser.extractDataSources
    (some (MExpressionParser.declaredParams E.parsedModel.expressions)) src

end LineageEngine

/-- A `getVisualLineage` measure entry `{name, table, chain}`. -/
structure MeasureEntry where
  name : String
  table : String
  chain : List ChainEntry
deriving DecidableEq

/-- An expanded calculation-group item of `getVisualLineage`. -/
structure ExpandedCalcItem where
  name : String
  expression : String
  sourceTable : String
deriving DecidableEq

/-- An expanded field-parameter item of `getVisualLineage`. -/
structure ExpandedFPItem where
  table : String
  column : String
  sourceTable : String
  resolvedTables : Option (List String)
deriving DecidableEq

/-- A `getVisualLineage` table entry `{name, sources}`. -/
structure LineageTable where
  name : String
  sources : List DataSource
deriving DecidableEq

/-- The `getVisualLineage` result. -/
structure VisualLineage where
  visualName : String
  visualPage : String
  visualType : Option String
  measures : List MeasureEntry
  columns : List ColumnRef
  expandedCalcItems : List ExpandedCalcItem
  expandedFPItems : List ExpandedFPItem
  tables : List LineageTable
  dataSources : List DataSource
deriving DecidableEq

namespace LineageEngine

/-- The `tables` additions of the measure branch of `getVisualLineage`'s field
loop: the defining table (unless a field-parameter container), the measure's
own DAX-referenced tables, then the same for every chain entry. -/
def addMeasureTables (E : LineageEngine) (fp : List String)
    (fieldName tableName : String) (chain : List ChainEntry)
    (tables : List String) : List String :=
  let t1 := if !fp.contains tableName then setAdd tables tableName else tables
  let t2 := match lookupRefs E fieldName with
    | some refs => (refs.columnRefs.map (·.table) ++ refs.tableRefs).foldl setAdd t1
    | none => t1
  chain.foldl (fun acc m =>
    let a1 := if !fp.contains m.table then setAdd acc m.table else acc
    match lookupRefs E m.name with
    | some mRefs => (mRefs.columnRefs.map (·.table) ++ mRefs.tableRefs).foldl setAdd a1
    | none => a1) t2

/-- Source `LineageEngine.getVisualLineage(pageName, visualName)`.  The memoization
cache (`_visualLineageCache`) is omitted: write-once per key over an immutable
engine. -/
def getVisualLineage (E : LineageEngine) (pageName visualName : String) :
    Option VisualLineage :=
  match E.visualData with
  | none => none
  | some vd =>
    match vd.visuals.find?
        (fun v => v.pageName = pageName && v.visualName = visualName) with
    | none => none
    | some visual =>
      let fp := fieldParamTableNames E
      let s1 := visual.fields.foldl (fun st field =>
        let tableName := fieldTableOf field
        let fieldName := fieldNameOf field
        if tableName = "" || fieldName = "" then st
        else if field.type = some "measure" then
          if st.1.any (fun p => p.1 = fieldName) then st
          else
            let chain := resolveMeasureChain E fieldName
            (st.1 ++ [(fieldName, MeasureEntry.mk fieldName tableName chain)],
             st.2.1,
             addMeasureTables E fp fieldName tableName chain st.2.2)
        else
          let key := tableName ++ "." ++ fieldName
          let cols' := if st.2.1.any (fun p => p.1 = key) then st.2.1
            else st.2.1 ++ [(key, ColumnRef.mk tableName fieldName)]
          (st.1, cols', setAdd st.2.2 tableName))
        (([], [], []) :
          List (String × MeasureEntry) × List (String × ColumnRef) × List String)
      let measures := s1.1
      let columns0 := s1.2.1
      let tables0 := s1.2.2
      let s2 := columns0.foldl (fun st kv =>
        let col := kv.2
        match getCalculationGroupItems E col.table with
        | some cgItems =>
          (st.1 ++ cgItems.map (fun item =>
             ExpandedCalcItem.mk item.name (item.expression.getD "") col.table),
           st.2.1, st.2.2.1 ++ [kv.1], st.2.2.2)
        | none =>
          match getFieldParameterItems E col.table with
          | some fpItems =>
            let s' := fpItems.foldl (fun st2 item =>
              let resolved := fpResolvedTables E item.column
              (st2.1 ++ [ExpandedFPItem.mk item.table item.column col.table
                 (if resolved ≠ [] then some resolved else none)],
               if resolved ≠ [] then resolved.foldl setAdd st2.2
               else setAdd st2.2 item.table))
              ((st.2.1, st.2.2.2) : List ExpandedFPItem × List String)
            (st.1, s'.1, st.2.2.1 ++ [kv.1], s'.2)
          | none => st)
        (([], [], [], tables0) :
          List ExpandedCalcItem × List ExpandedFPItem × List String × List String)
      let expandedCalcItems := s2.1
      let expandedFPItems := s2.2.1
      let columnsToRemove := s2.2.2.1
      let tables1 := s2.2.2.2
      let columns1 := columns0.filter (fun kv => !columnsToRemove.contains kv.1)
      let tables2 :=
        if expandedFPItems ≠ [] then
          let fpNameofTables := (expandedFPItems.map (·.table)).foldl setAdd []
          fpNameofTables.foldl (fun acc ft =>
            if (columns1.map (·.2)).any (fun c => c.table = ft) then acc
            else acc.filter (fun t => t ≠ ft)) tables1
        else tables1
      let s3 := tables2.foldl (fun st tableName =>
        match E.parsedModel.tables.find? (fun t => t.name = some tableName) with
        | none => st
        | some table =>
          let s' := table.partitions.foldl (fun st2 p =>
            if truthy p.source then
              (engineExtractDS E p.source).foldl (fun st3 src =>
                let key := MExpressionParser.sourceKey src
                (if st3.1.any (fun q => q.1 = key) then st3.1
                 else st3.1 ++ [(key, src)],
                 st3.2 ++ [src])) st2
            else st2)
            ((st.1, []) : List (String × DataSource) × List DataSource)
          (s'.1, st.2 ++ [(tableName, s'.2)]))
        (([], []) : List (String × DataSource) × List (String × List DataSource))
      let sourcesMap := s3.1
      let tableSourceMap := s3.2
      some {
        visualName := visualName, visualPage := pageName,
        visualType := visual.visualType,
        measures := measures.map (·.2),
        columns := columns1.map (·.2),
        expandedCalcItems := expandedCalcItems,
        expandedFPItems := expandedFPItems,
        tables := tables2.map (fun t =>
          LineageTable.mk t
            (((tableSourceMap.find? (fun p => p.1 = t)).map (·.2)).getD [])),
        dataSources := sourcesMap.map (·.2) }

end LineageEngine

/-- A graph edge `{from, to, type}` (`from` and `to` are Lean tokens, hence
the trailing underscores). -/
structure Edge where
  from_ : String
  to_ : String
  type : String
deriving DecidableEq

namespace LineageEngine

/-- The `daxTables` set computed in `buildGraph` step 2 for one measure: the
tables referenced by the measure's own DAX plus those of every measure in its
resolved chain. -/
def measureDaxTables (E : LineageEngine) (name : String) : List String :=
  let t0 := match lookupRefs E name with
    | some refs => (refs.columnRefs.map (·.table) ++ refs.tableRefs).foldl setAdd []
    | none => []
  (resolveMeasureChain E name).foldl (fun acc m =>
    match lookupRefs E m.name with
    | some mRefs => (mRefs.columnRefs.map (·.table) ++ mRefs.tableRefs).foldl setAdd acc
    | none => acc) t0

/-- The edges `buildGraph` step 2 emits for one measure of one table:
`defined_in_table` to every DAX-referenced table (falling back to the defining
table only when there are none), then `references_column`,
`depends_on_measure` and `references_table` edges from the extracted
references. -/
def measureEdges (E : LineageEngine) (t : Table) (m : Measure) : List Edge :=
  let tableId := "table:" ++ jsShow t.name
  let measureId := "measure:" ++ jsShow t.name ++ "." ++ m.name
  let refs := lookupRefs E m.name
  let daxTables := measureDaxTables E m.name
  let defEdges :=
    if daxTables ≠ [] then
      daxTables.map (fun dt => Edge.mk measureId ("table:" ++ dt) "defined_in_table")
    else [Edge.mk measureId tableId "defined_in_table"]
  let refEdges := match refs with
    | none => []
    | some r =>
      r.columnRefs.map (fun cr =>
        Edge.mk measureId ("column:" ++ cr.table ++ "." ++ cr.column) "references_column")
      ++ r.measureRefs.flatMap (fun mr =>
        match measureLookupTruthy E.parsedModel.tables mr with
        | some refTable =>
          [Edge.mk measureId ("measure:" ++ refTable ++ "." ++ mr) "depends_on_measure"]
        | none => [])
      ++ r.tableRefs.map (fun tr =>
        Edge.mk measureId ("table:" ++ tr) "references_table")
  defEdges ++ refEdges

/-- The node ids of the deduplicated data sources added in `buildGraph`
step 1. -/
def sourceNodeIds (E : LineageEngine) : List String :=
  (MExpressionParser.extractAllFromModel E.parsedModel).map
    (fun s => "source:" ++ MExpressionParser.sourceKey s)

/-- The edges `buildGraph` step 2 emits for one table: column
`belongs_to_table` edges, per-measure edges, then partition
`connects_to_source` edges (only for sources whose node exists). -/
def tableEdges (E : LineageEngine) (t : Table) : List Edge :=
  let tableId := "table:" ++ jsShow t.name
  t.columns.map (fun c =>
    Edge.mk ("column:" ++ jsShow t.name ++ "." ++ c.name) tableId "belongs_to_table")
  ++ t.measures.flatMap (measureEdges E t)
  ++ t.partitions.flatMap (fun p =>
    if truthy p.source then
      (engineExtractDS E p.source).flatMap (fun src =>
        let sourceId := "source:" ++ MExpressionParser.sourceKey src
        if (sourceNodeIds E).contains sourceId then
          [Edge.mk tableId sourceId "connects_to_source"]
        else [])
    else [])

/-- The edges `buildGraph` step 4 emits: calc-item and field-parameter-item
`belongs_to_table` edges (with the NAMEOF measure-resolution redirect). -/
def expansionEdges (E : LineageEngine) : List Edge :=
  E.parsedModel.tables.flatMap (fun t =>
    let tname := jsShow t.name
    match getCalculationGroupItems E tname with
    | some cgItems =>
      cgItems.map (fun item =>
        Edge.mk ("calcItem:" ++ tname ++ "." ++ item.name) ("table:" ++ tname)
          "belongs_to_table")
    | none =>
      match getFieldParameterItems E tname with
      | some fpItems =>
        fpItems.flatMap (fun item =>
          let id := "fpItem:" ++ tname ++ "." ++ item.table ++ "." ++ item.column
          let resolved := fpResolvedTables E item.column
          if resolved ≠ [] then
            resolved.map (fun rt => Edge.mk id ("table:" ++ rt) "belongs_to_table")
          else [Edge.mk id ("table:" ++ item.table) "belongs_to_table"])
      | none => [])

/-- The `uses_field` edges `buildGraph` step 5 emits for the visuals, with the
calc-group / field-parameter redirection. -/
def visualEdges (E : LineageEngine) : List Edge :=
  match E.visualData with
  | none => []
  | some vd =>
    let cg := calcGroupTableNames E
    let fp := fieldParamTableNames E
    vd.visuals.flatMap (fun visual =>
      let visualId := "visual:" ++ visual.pageName ++ "|" ++ visual.visualName
      visual.fields.flatMap (fun field =>
        let tableName := fieldTableOf field
        let fieldName := fieldNameOf field
        if tableName = "" || fieldName = "" then []
        else if field.type = some "measure" then
          [Edge.mk visualId ("measure:" ++ tableName ++ "." ++ fieldName) "uses_field"]
        else if field.type = some "column" then
          if cg.contains tableName then
            match getCalculationGroupItems E tableName with
            | some cgItems =>
              cgItems.map (fun item =>
                Edge.mk visualId ("calcItem:" ++ tableName ++ "." ++ item.name)
                  "uses_field")
            | none => []
          else if fp.contains tableName then
            match getFieldParameterItems E tableName with
            | some fpItems =>
              fpItems.map (fun item =>
                Edge.mk visualId
                  ("fpItem:" ++ tableName ++ "." ++ item.table ++ "." ++ item.column)
                  "uses_field")
            | none => []
          else
            [Edge.mk visualId ("column:" ++ tableName ++ "." ++ fieldName) "uses_field"]
        else if field.type = some "hierarchy" then
          [Edge.mk visualId ("table:" ++ tableName) "uses_field"]
        else []))

/-- All edges pushed by `LineageEngine.buildGraph()` (the node bookkeeping of
steps 1–3 is modelled only through `sourceNodeIds`, which the edge emission
consults; nodes carry no further edge-relevant state). -/
def buildGraphEdges (E : LineageEngine) : List Edge :=
  E.parsedModel.tables.flatMap (tableEdges E)
  ++ expansionEdges E
  ++ visualEdges E

end LineageEngine

/-! ## Concrete instances used to settle the claims -/

/-- A table holding only measures with the given names. -/
def measureTable (tname : String) (ms : List String) : Table :=
  { name := some tname, measures := ms.map (fun n => { name := n }) }

/-- Engine with an indirect dependency `A → C → B` (all in table `T`). -/
def engineIndirect : LineageEngine :=
  { parsedModel := { tables := [measureTable "T" ["A", "C", "B"]] },
    measureRefs :=
      [("A", ⟨["C"], [], []⟩), ("C", ⟨["B"], [], []⟩), ("B", ⟨[], [], []⟩)] }

example :
    LineageEngine.resolveMeasureChain engineIndirect "A"
      = [⟨"C", "T"⟩, ⟨"B", "T"⟩] := by decide

example :
    (LineageEngine.getMeasureImpact engineIndirect "B").dependentMeasures
      = [⟨"C", "T"⟩] := by decide

/-- Engine with a mutual measure cycle `A ↔ B`. -/
def engineCyclic : LineageEngine :=
  { parsedModel := { tables := [measureTable "T" ["A", "B"]] },
    measureRefs := [("A", ⟨["B"], [], []⟩), ("B", ⟨["A"], [], []⟩)] }

example :
    LineageEngine.resolveMeasureChain engineCyclic "A"
      = [⟨"B", "T"⟩, ⟨"A", "T"⟩] := by decide

/-! ## Fuel sufficiency of the chain resolver -/

theorem length_filter_mono {α : Type} (p q : α → Bool)
    (h : ∀ a, p a = true → q a = true) :
    ∀ l : List α, (l.filter p).length ≤ (l.filter q).length := by
  intro l
  induction l with
  | nil => simp
  | cons x rest ih =>
    by_cases hp : p x = true
    · simp [List.filter_cons, hp, h x hp]
      omega
    · simp only [List.filter_cons]
      rw [if_neg (by simpa using hp)]
      by_cases hq : q x = true
      · rw [if_pos (by simpa using hq)]
        exact le_trans ih (by simp)
      · rw [if_neg (by simpa using hq)]
        exact ih

/-- Marking one more visited key strictly shrinks the unvisited-key count. -/
theorem length_filter_unvisited_lt (keys v : List String) (m : String)
    (hm : m ∈ keys) (hv : v.contains m = false) :
    (keys.filter (fun n => !(m :: v).contains n)).length
      < (keys.filter (fun n => !v.contains n)).length := by
  obtain ⟨s, t, rfl⟩ := List.append_of_mem hm
  have hmono : ∀ l : List String,
      (l.filter (fun n => !(m :: v).contains n)).length
        ≤ (l.filter (fun n => !v.contains n)).length := by
    intro l
    refine length_filter_mono _ _ ?_ l
    intro a ha
    simp only [Bool.not_eq_true'] at ha ⊢
    simp only [List.contains_cons, Bool.or_eq_false_iff] at ha
    exact ha.2
  have h1 : (!((m :: v).contains m)) = false := by simp
  have h2 : (!(v.contains m)) = true := by simpa using hv
  have hms := hmono s
  have hmt := hmono t
  simp only [List.filter_append, List.filter_cons, h1, h2, Bool.false_eq_true,
    if_false, if_true, List.length_append, List.length_cons]
  omega

namespace LineageEngine

theorem lookupRefs_some_mem (E : LineageEngine) (n : String) (r : DAXResult)
    (h : lookupRefs E n = some r) : n ∈ refKeys E := by
  unfold lookupRefs at h
  rcases hfind : E.measureRefs.find? (fun p => p.1 = n) with _ | p
  · rw [hfind] at h; cases h
  · have hmem := List.mem_of_find?_eq_some hfind
    have hp := List.find?_some hfind
    have : p.1 = n := by simpa using hp
    exact this ▸ List.mem_map_of_mem Prod.fst hmem

/-- The number of `measureRefs` keys not yet visited (plus one) bounds the
recursion depth actually needed. -/
def chainFuelBound (E : LineageEngine) (visited : List String) : Nat :=
  ((refKeys E).filter (fun n => !visited.contains n)).length + 1

theorem resolveMeasureChainAux_fuel_irrelevant (E : LineageEngine) :
    ∀ (f1 f2 : Nat) (m : String) (v : List String),
      chainFuelBound E v ≤ f1 → chainFuelBound E v ≤ f2 →
      resolveMeasureChainAux E f1 m v = resolveMeasureChainAux E f2 m v := by
  intro f1
  induction f1 with
  | zero => intro f2 m v h1 _; exact absurd h1 (by simp [chainFuelBound])
  | succ n ih =>
    intro f2 m v h1 h2
    match f2, h2 with
    | 0, h2 => exact absurd h2 (by simp [chainFuelBound])
    | k + 1, h2 =>
      simp only [resolveMeasureChainAux]
      by_cases hvis : m ∈ v
      · simp [hvis]
      · have hvisb : v.contains m = false := by simpa using hvis
        have hc : ¬(v.contains m = true) := by simpa using hvis
        rw [if_neg hc, if_neg hc]
        rcases href : lookupRefs E m with _ | refs
        · rfl
        · dsimp only
          congr 1
          refine List.flatMap_congr ?_
          intro rm _
          rcases measureLookupTruthy E.parsedModel.tables rm with _ | tbl
          · rfl
          · simp only [List.cons.injEq, true_and]
            have hmem := lookupRefs_some_mem E m refs href
            have hlt := length_filter_unvisited_lt (refKeys E) v m hmem hvisb
            refine ih k rm (m :: v) ?_ ?_
            · unfold chainFuelBound at h1 ⊢; omega
            · unfold chainFuelBound at h2 ⊢; omega

theorem resolveMeasureChainAux_eq_resolve (E : LineageEngine)
    (fuel : Nat) (m : String) (v : List String)
    (h : chainFuelBound E v ≤ fuel) :
    resolveMeasureChainAux E fuel m v = resolveMeasureChain E m v := by
  refine resolveMeasureChainAux_fuel_irrelevant E fuel (E.measureRefs.length + 1) m v h ?_
  unfold chainFuelBound
  have h1 : ((refKeys E).filter (fun n => !v.contains n)).length ≤ (refKeys E).length :=
    List.length_filter_le _ _
  have h2 : (refKeys E).length = E.measureRefs.length := by
    simp [refKeys]
  omega

end LineageEngine

/-! ## Claim theorems -/

/-- Claim C2. For every `measureRefs` map (self-referential and mutually-cyclic
graphs included) `resolveMeasureChain` terminates and returns a finite chain:
any recursion fuel of at least the number of not-yet-visited `measureRefs`
keys plus one computes the same (hence stable, finite) result; a measure
already in its own ancestry (`visited`) yields an empty chain for that branch;
and the returned chain is duplicate-free under the `table.name` dedup key.
The embedding passes the same extended `visited` list to every sibling
recursive call, mirroring the per-call `new Set(visited)` copy of the source. -/
theorem resolveMeasureChain_terminates_cycle_safe :
    (∀ (E : LineageEngine) (fuel : Nat) (m : String) (v : List String),
        LineageEngine.chainFuelBound E v ≤ fuel →
        LineageEngine.resolveMeasureChainAux E fuel m v
          = LineageEngine.resolveMeasureChain E m v) ∧
    (∀ (E : LineageEngine) (m : String) (v : List String), m ∈ v →
        LineageEngine.resolveMeasureChain E m v = []) ∧
    (∀ (E : LineageEngine) (m : String) (v : List String),
        ((LineageEngine.resolveMeasureChain E m v).map chainKey).Nodup) := by
  refine ⟨LineageEngine.resolveMeasureChainAux_eq_resolve, ?_, ?_⟩
  · intro E m v h
    have hc : v.contains m = true := by simpa using h
    simp only [LineageEngine.resolveMeasureChain, LineageEngine.resolveMeasureChainAux]
    rw [if_pos hc]
  · intro E m v
    simp only [LineageEngine.resolveMeasureChain, LineageEngine.resolveMeasureChainAux]
    by_cases hvis : m ∈ v
    · simp [hvis]
    · have hc : ¬(v.contains m = true) := by simpa using hvis
      rw [if_neg hc]
      rcases lookupRefs : LineageEngine.lookupRefs E m with _ | refs
      · simp
      · exact dedupBy_keys_nodup chainKey _

/-- Witness for C2 at the mutually-cyclic engine: the cycle branch returns the
empty chain, a generous fuel agrees with the canonical one, and the resolved
chain of the cyclic measure is duplicate-free. -/
theorem resolveMeasureChain_terminates_cycle_safe_witness :
    LineageEngine.resolveMeasureChain engineCyclic "A" ["A"] = [] ∧
    LineageEngine.resolveMeasureChainAux engineCyclic 40 "A" []
      = LineageEngine.resolveMeasureChain engineCyclic "A" [] ∧
    ((LineageEngine.resolveMeasureChain engineCyclic "A" []).map chainKey).Nodup :=
  ⟨resolveMeasureChain_terminates_cycle_safe.2.1 engineCyclic "A" ["A"] (by decide),
   resolveMeasureChain_terminates_cycle_safe.1 engineCyclic 40 "A" [] (by decide),
   resolveMeasureChain_terminates_cycle_safe.2.2 engineCyclic "A" []⟩

/-- Claim C1, counterexample. With `A → C → B` (A's DAX references C, C's
references B, A's does not reference B), `resolveMeasureChain("A")` contains
`B`, yet `getMeasureImpact("B").dependentMeasures` does not contain `A` — the
claimed biconditional fails for indirect dependencies. -/
theorem getMeasureImpact_inverse_counterexample :
    ((LineageEngine.resolveMeasureChain engineIndirect "A").map
        ChainEntry.name).contains "B" = true ∧
    (((LineageEngine.getMeasureImpact engineIndirect "B").dependentMeasures).map
        ChainEntry.name).contains "A" = false := by
  constructor
  · decide
  · decide

/-- Claim C1, amended. `getMeasureImpact(B).dependentMeasures` is a one-hop
reverse search: given that `B` resolves in the measure lookup, it contains a
measure named `A` exactly when the `measureRefs` map has an entry for `A`
whose direct `measureRefs` include `B` and `A` itself resolves in the lookup;
and every such direct dependent `A` has `B`'s chain key in
`resolveMeasureChain(A)`.  The inverse relationship against the full
transitive chain does not hold (see the counterexample). -/
theorem getMeasureImpact_one_hop_characterization :
    ∀ (E : LineageEngine) (A B tableB : String),
      measureLookupTruthy E.parsedModel.tables B = some tableB →
      ((∃ e ∈ (LineageEngine.getMeasureImpact E B).dependentMeasures, e.name = A) ↔
        (∃ p ∈ E.measureRefs, p.1 = A ∧ p.2.measureRefs.contains B = true ∧
          (measureLookupTruthy E.parsedModel.tables A).isSome = true)) ∧
      (∀ refs, LineageEngine.lookupRefs E A = some refs →
        B ∈ refs.measureRefs →
        ∃ e ∈ LineageEngine.resolveMeasureChain E A [],
          chainKey e = tableB ++ "." ++ B) := by
  intro E A B tableB hB
  constructor
  · simp only [LineageEngine.getMeasureImpact, hB]
    constructor
    · rintro ⟨e, he, hname⟩
      rcases List.mem_flatMap.mp he with ⟨p, hp, hep⟩
      by_cases hcont : p.2.measureRefs.contains B = true
      · simp only [hcont, if_true] at hep
        rcases hlk : measureLookupTruthy E.parsedModel.tables p.1 with _ | mTable
        · rw [hlk] at hep; cases hep
        · rw [hlk] at hep
          rcases List.mem_singleton.mp hep with rfl
          refine ⟨p, hp, ?_, hcont, ?_⟩
          · simpa using hname
          · have : p.1 = A := by simpa using hname
            rw [← this, hlk]; rfl
      · simp only [Bool.not_eq_true] at hcont
        rw [hcont] at hep
        simp at hep
    · rintro ⟨p, hp, hA, hcont, hsome⟩
      rw [← hA] at hsome
      cases hlk : measureLookupTruthy E.parsedModel.tables p.1 with
      | none => rw [hlk] at hsome; simp at hsome
      | some mTable =>
        refine ⟨ChainEntry.mk p.1 mTable, ?_, by simpa using hA⟩
        refine List.mem_flatMap.mpr ⟨p, hp, ?_⟩
        have hBmem : B ∈ p.2.measureRefs := by simpa using hcont
        simp [hcont, hlk, hBmem]
  · intro refs href hBrefs
    simp only [LineageEngine.resolveMeasureChain, LineageEngine.resolveMeasureChainAux]
    have hc : ¬(([] : List String).contains A = true) := by simp
    rw [if_neg hc]
    rcases hrw : LineageEngine.lookupRefs E A with _ | refs'
    · rw [href] at hrw; cases hrw
    · rw [href] at hrw
      injection hrw with hrefs
      subst hrefs
      have hmem : ChainEntry.mk B tableB ∈
          refs.measureRefs.flatMap (fun refMeasure =>
            match measureLookupTruthy E.parsedModel.tables refMeasure with
            | none => []
            | some refTable =>
              ChainEntry.mk refMeasure refTable ::
                LineageEngine.resolveMeasureChainAux E E.measureRefs.length
                  refMeasure (A :: [])) := by
        refine List.mem_flatMap.mpr ⟨B, hBrefs, ?_⟩
        rw [hB]
        exact List.mem_cons_self _ _
      rcases dedupBy_mem_key chainKey _ _ hmem with ⟨b, hb, hkey⟩
      exact ⟨b, hb, hkey⟩

/-- Witness for C1's amended theorem at the `A → C → B` engine: `C` is a
direct dependent of `B`, and its chain contains `B`'s key. -/
theorem getMeasureImpact_one_hop_characterization_witness :
    (∃ e ∈ (LineageEngine.getMeasureImpact engineIndirect "B").dependentMeasures,
      e.name = "C") ∧
    (∃ e ∈ LineageEngine.resolveMeasureChain engineIndirect "C" [],
      chainKey e = "T" ++ "." ++ "B") :=
  ⟨((getMeasureImpact_one_hop_characterization engineIndirect "C" "B" "T"
        (by decide)).1).mpr (by decide),
   (getMeasureImpact_one_hop_characterization engineIndirect "C" "B" "T"
        (by decide)).2 ⟨["B"], [], []⟩ (by decide) (by decide)⟩

/-- A table `T` holding measures `M` (whose DAX references `Sales[Amount]`)
and `M2` (no references); `T` is not a field-parameter container. -/
def tableT : Table :=
  { name := some "T", measures := [{ name := "M" }, { name := "M2" }] }

/-- The `Sales` data table. -/
def tableSales : Table :=
  { name := some "Sales", columns := [{ name := "Amount" }] }

/-- Engine whose measure `M` is defined in `T` but references only `Sales`. -/
def engineDefinedIn : LineageEngine :=
  { parsedModel := { tables := [tableT, tableSales] },
    measureRefs := [("M", ⟨[], [⟨"Sales", "Amount"⟩], []⟩)] }

/-- Claim C3, counterexample. Measure `M` is defined in table `T`, which is not
a field-parameter/NAMEOF container, yet `buildGraph` emits its
`defined_in_table` edge to the DAX-referenced table `Sales` and no
`defined_in_table` edge to `T`. -/
theorem buildGraph_defined_in_table_counterexample :
    Edge.mk "measure:T.M" "table:Sales" "defined_in_table"
        ∈ LineageEngine.buildGraphEdges engineDefinedIn ∧
    Edge.mk "measure:T.M" "table:T" "defined_in_table"
        ∉ LineageEngine.buildGraphEdges engineDefinedIn ∧
    LineageEngine.fieldParamTableNames engineDefinedIn = [] := by
  refine ⟨by decide, by decide, by decide⟩

/-- Claim C3, amended. `buildGraph` gives every measure `defined_in_table`
edges to the tables referenced by its DAX (directly or through its resolved
measure chain), regardless of whether the defining table is a field-parameter
container; only when that set is empty does the edge fall back to the defining
table. -/
theorem buildGraph_defined_in_table_edges :
    ∀ (E : LineageEngine) (t : Table) (m : Measure),
      t ∈ E.parsedModel.tables → m ∈ t.measures →
      (LineageEngine.measureDaxTables E m.name = [] →
        Edge.mk ("measure:" ++ jsShow t.name ++ "." ++ m.name)
          ("table:" ++ jsShow t.name) "defined_in_table"
          ∈ LineageEngine.buildGraphEdges E) ∧
      (∀ dt ∈ LineageEngine.measureDaxTables E m.name,
        Edge.mk ("measure:" ++ jsShow t.name ++ "." ++ m.name)
          ("table:" ++ dt) "defined_in_table"
          ∈ LineageEngine.buildGraphEdges E) := by
  intro E t m ht hm
  have hsub : ∀ e ∈ LineageEngine.measureEdges E t m,
      e ∈ LineageEngine.buildGraphEdges E := by
    intro e he
    have h1 : e ∈ LineageEngine.tableEdges E t := by
      unfold LineageEngine.tableEdges
      refine List.mem_append.mpr (Or.inl ?_)
      refine List.mem_append.mpr (Or.inr ?_)
      exact List.mem_flatMap.mpr ⟨m, hm, he⟩
    unfold LineageEngine.buildGraphEdges
    refine List.mem_append.mpr (Or.inl ?_)
    refine List.mem_append.mpr (Or.inl ?_)
    exact List.mem_flatMap.mpr ⟨t, ht, h1⟩
  constructor
  · intro hempty
    apply hsub
    simp [LineageEngine.measureEdges, hempty]
  · intro dt hdt
    apply hsub
    have hne : LineageEngine.measureDaxTables E m.name ≠ [] := by
      intro h0; rw [h0] at hdt; cases hdt
    simp only [LineageEngine.measureEdges]
    refine List.mem_append.mpr (Or.inl ?_)
    rw [if_pos hne]
    exact List.mem_map.mpr ⟨dt, hdt, rfl⟩

/-- Witness for C3's amended theorem at the concrete engine: `M2` (no DAX
references) falls back to its defining table, `M` gets the edge to `Sales`. -/
theorem buildGraph_defined_in_table_edges_witness :
    Edge.mk "measure:T.M2" "table:T" "defined_in_table"
        ∈ LineageEngine.buildGraphEdges engineDefinedIn ∧
    Edge.mk "measure:T.M" "table:Sales" "defined_in_table"
        ∈ LineageEngine.buildGraphEdges engineDefinedIn :=
  ⟨by
      have h := (buildGraph_defined_in_table_edges engineDefinedIn tableT
        { name := "M2" } (by decide) (by decide)).1 (by decide)
      simpa using h,
   by
      have h := (buildGraph_defined_in_table_edges engineDefinedIn tableT
        { name := "M" } (by decide) (by decide)).2 "Sales" (by decide)
      simpa using h⟩

/-- Engine realising the C4 scenario: a visual on page `p1` uses measure `A`
(defined in `TA`); `A`'s DAX references measure `B` (defined in `TB`); `B`'s
DAX references column `T[C]`; table `T` has a partition sourced from
`Sql.Database("srv01","db1")`. -/
def engineVisual : LineageEngine :=
  { parsedModel :=
      { tables :=
          [{ name := some "TA", measures := [{ name := "A" }] },
           { name := some "T", columns := [{ name := "C" }],
             partitions :=
               [{ name := "P",
                  source := some "Sql.Database(\"srv01\",\"db1\")" }] },
           { name := some "TB", measures := [{ name := "B" }] }] },
    visualData := some
      { visuals :=
          [{ pageName := "p1", visualName := "v1", visualType := some "card",
             fields :=
               [{ type := some "measure", table := some "TA",
                  name := some "A" }] }] },
    measureRefs :=
      [("A", ⟨["B"], [], []⟩), ("B", ⟨[], [⟨"T", "C"⟩], []⟩)] }

/-- Claim C4, counterexample. For the visual using only measure `A` (with
`A → B` and `B → T[C]`), `getVisualLineage` resolves `A` (its chain reaches
`B`, and `T` enters the table set), yet its `columns` list is empty: `T[C]`
is not reported as a column, contradicting the claim. -/
theorem getVisualLineage_columns_counterexample :
    (LineageEngine.getVisualLineage engineVisual "p1" "v1").map
        (fun r => (r.measures.map MeasureEntry.name, r.columns))
      = some (["A"], []) := by decide

/-- Claim C4, amended. For a visual using measure `A`, with `A`'s DAX
referencing measure `B` and `B`'s DAX referencing column `T[C]`:
`getVisualLineage` lists `A` in `measures` with `B` in `A`'s resolved chain,
includes `T` in `tables`, and `T`'s extracted data source in `dataSources`;
the `columns` list holds only the visual's direct column fields, so `T[C]`
is represented through its table rather than as a column entry. -/
theorem getVisualLineage_scenario :
    (LineageEngine.getVisualLineage engineVisual "p1" "v1").map
        (fun r =>
          (r.measures.map (fun me => (me.name, me.table, me.chain)),
           r.columns,
           r.tables.map (fun tb =>
             (tb.name, tb.sources.map (fun s => (s.type, s.server, s.database)))),
           r.dataSources.map (fun s => (s.type, s.server, s.database))))
      = some
          ([("A", "TA", [⟨"B", "TB"⟩])],
           [],
           [("TA", []), ("TB", []),
            ("T", [("SQL Server", some "srv01", some "db1")])],
           [("SQL Server", some "srv01", some "db1")]) := by rfl

/-- Claim C5. Gateway classification is a total function of one source
descriptor (`_requiresGateway`): a SQL Server source on
`foo.database.windows.net` is cloud (`some false`), one on `CORP-SQL01`
requires a gateway (`some true`), every Google BigQuery source is cloud
(`some false`), and a connector type matching none of the three rule groups
yields the explicit `none` ("unknown"), never a defaulted boolean. -/
theorem requiresGateway_classification :
    (MExpressionParser.requiresGateway
        { type := "SQL Server", server := some "foo.database.windows.net" }
      = some false) ∧
    (MExpressionParser.requiresGateway
        { type := "SQL Server", server := some "CORP-SQL01" } = some true) ∧
    (∀ s : DataSource, s.type = "Google BigQuery" →
      MExpressionParser.requiresGateway s = some false) ∧
    (∀ s : DataSource,
      MExpressionParser.onPremConnectors.contains s.type = false →
      (["Excel", "CSV"] : List String).contains s.type = false →
      MExpressionParser.cloudConnectors.contains s.type = false →
      MExpressionParser.requiresGateway s = none) := by
  refine ⟨by decide, by decide, ?_, ?_⟩
  · intro s hty
    unfold MExpressionParser.requiresGateway
    rw [hty]
    have h1 : "Google BigQuery" ∉ MExpressionParser.onPremConnectors := by decide
    have h2 : ("Google BigQuery" : String) ∉ (["Excel", "CSV"] : List String) := by
      decide
    have h3 : "Google BigQuery" ∈ MExpressionParser.cloudConnectors := by decide
    simp [h1, h2, h3]
  · intro s h1 h2 h3
    unfold MExpressionParser.requiresGateway
    rw [h1, h2, h3]
    rfl

/-- Witness for C5: a BigQuery source with an arbitrary server is classified
cloud, and an unrecognised connector type with no server is `none`. -/
theorem requiresGateway_classification_witness :
    MExpressionParser.requiresGateway
        { type := "Google BigQuery", server := some "my-project" } = some false ∧
    MExpressionParser.requiresGateway { type := "Custom Connector" } = none :=
  ⟨requiresGateway_classification.2.2.1
      { type := "Google BigQuery", server := some "my-project" } rfl,
   requiresGateway_classification.2.2.2
      { type := "Custom Connector" } (by decide) (by decide) (by decide)⟩

/-- For a SQL Server capture with the expression-wide flag off, the
`parameterized` flag is set exactly when `parameters` is populated, i.e. when
one of the source's own captured arguments is a truthy `#"…"` reference. -/
theorem mkSql_parameterized_iff_parameters (m : Option MArg × Option MArg) :
    ((MExpressionParser.mkSql false m).parameterized = true) ↔
    ((MExpressionParser.mkSql false m).parameters.isSome = true) := by
  rcases m with ⟨a1, a2⟩
  rcases a1 with _ | (s1 | s1) <;> rcases a2 with _ | (s2 | s2) <;>
    simp only [MExpressionParser.mkSql, MExpressionParser.argIsRef,
      MExpressionParser.refName] <;>
    (try simp) <;>
    first
    | (by_cases h1 : s1 = "" <;> by_cases h2 : s2 = "" <;> simp [h1, h2])
    | (by_cases h1 : s1 = "" <;> simp [h1])
    | (by_cases h2 : s2 = "" <;> simp [h2])

/-- Claim C6, counterexample. An unrelated `#"Other"` reference elsewhere in
the expression makes the SQL Server source `parameterized := true` even
though both of its own captured arguments are string literals — against the
claim (evaluated in the initial parser state, before any
`extractAllFromModel` call). -/
theorem extractDataSources_parameterized_counterexample :
    MExpressionParser.extractDataSources none
        (some "let s = #\"Other\" in Sql.Database(\"srv01\",\"db1\")")
      = [{ type := "SQL Server", server := some "srv01",
           database := some "db1", parameterized := true }] := by decide

/-- Claim C6, amended. The two spec examples hold when the expression contains
no other recognised `#"…"` reference: `Sql.Database("srv01","db1")` yields
`parameterized=false` and `Sql.Database(#"Server Param","db1")` yields
`parameterized=true` with parameter name `Server Param`.  In general, when
the expression yields no recognised parameter references, a SQL Server
source's `parameterized` flag is true exactly when one of its own captured
arguments is a `#"…"` reference (equivalently, its `parameters` list is
populated); with recognised references present anywhere in the expression,
every SQL Server source is flagged parameterized regardless of its own
arguments, while other connectors (here Analysis Services) still consult only
their own captured arguments. -/
theorem extractDataSources_parameterized_flag :
    (MExpressionParser.extractDataSources none
        (some "Sql.Database(\"srv01\",\"db1\")")
      = [{ type := "SQL Server", server := some "srv01",
           database := some "db1", parameterized := false }]) ∧
    (MExpressionParser.extractDataSources none
        (some "Sql.Database(#\"Server Param\",\"db1\")")
      = [{ type := "SQL Server", server := some "Server Param",
           database := some "db1", parameterized := true,
           parameters := some ["Server Param"] }]) ∧
    ((MExpressionParser.extractDataSources none
        (some "#\"Other\" AnalysisServices.Database(\"s\",\"d\")")).map
          (fun s => (s.type, s.parameterized))
      = [("Analysis Services", false)]) ∧
    (∀ (dp : Option (List String)) (s : String) (src : DataSource),
      MExpressionParser.extractParameterRefs dp s.toList = [] →
      src ∈ MExpressionParser.extractDataSources dp (some s) →
      src.type = "SQL Server" →
      (src.parameterized = true ↔ src.parameters.isSome = true)) := by
  refine ⟨by decide, by decide, by decide, ?_⟩
  intro dp s src hrefs hmem hty
  by_cases hs : s = ""
  · rw [hs] at hmem
    simp [MExpressionParser.extractDataSources] at hmem
  · simp only [MExpressionParser.extractDataSources, if_neg hs, hrefs,
      List.mem_append, or_assoc] at hmem
    rcases hmem with hmem | hmem
    · obtain ⟨m, _, rfl⟩ := List.mem_map.mp hmem
      have : (MExpressionParser.mkSql (decide (([] : List String) ≠ [])) m)
          = MExpressionParser.mkSql false m := by norm_num
      rw [this]
      exact mkSql_parameterized_iff_parameters m
    · exfalso
      rcases hmem with hmem | hmem | hmem | hmem | hmem | hmem | hmem | hmem
        | hmem | hmem | hmem | hmem | hmem | hmem | hmem | hmem | hmem | hmem
        | hmem | hmem | hmem | hmem <;>
        · obtain ⟨y, _, rfl⟩ := List.mem_map.mp hmem
          simp only [MExpressionParser.mkServerDb, MExpressionParser.mkUrl,
            MExpressionParser.mkPath, MExpressionParser.mkServer,
            MExpressionParser.mkBare] at hty
          exact absurd hty (by decide)

/-- Witness for C6's amended theorem, applied to the concrete literal-argument
SQL source extracted from `Sql.Database("srvX","dbX")`. -/
theorem extractDataSources_parameterized_flag_witness :
    (({ type := "SQL Server", server := some "srvX", database := some "dbX",
        parameterized := false } : DataSource).parameterized = true) ↔
    (({ type := "SQL Server", server := some "srvX", database := some "dbX",
        parameterized := false } : DataSource).parameters.isSome = true) :=
  extractDataSources_parameterized_flag.2.2.2 none "Sql.Database(\"srvX\",\"dbX\")"
    { type := "SQL Server", server := some "srvX", database := some "dbX",
      parameterized := false } (by decide) (by decide) (by decide)

/-- Erase the one field of a source that depends on the parser's
declared-parameter state. -/
def clearParameterized (s : DataSource) : DataSource :=
  { s with parameterized := false }

/-- Claim C7, counterexample. `extractDataSources` is not a pure function of
its input text: on the same expression, the result differs between the
initial parser state (`_declaredParams` undefined) and the state left behind
by `extractAllFromModel` on a model declaring no parameters. -/
theorem extractDataSources_not_pure_counterexample :
    MExpressionParser.extractDataSources none
        (some "#\"X\" Sql.Database(\"s\",\"d\")")
      ≠ MExpressionParser.extractDataSources
          (some (MExpressionParser.declaredParams []))
          (some "#\"X\" Sql.Database(\"s\",\"d\")") := by decide

/-- Claim C7, amended. `extractDataSources` is a function of the input text
and of the declared-parameter state stored by the most recent
`extractAllFromModel` call; the state influences only the `parameterized`
flag of SQL Server sources — with that flag erased, any two states yield
identical source lists for equal inputs. -/
theorem extractDataSources_state_invariance :
    ∀ (dp1 dp2 : Option (List String)) (me : Option String),
      (MExpressionParser.extractDataSources dp1 me).map clearParameterized
        = (MExpressionParser.extractDataSources dp2 me).map clearParameterized := by
  intro dp1 dp2 me
  cases me with
  | none => rfl
  | some s =>
    by_cases hs : s = ""
    · simp [MExpressionParser.extractDataSources, hs]
    · have hseg : ∀ (b1 b2 : Bool) (l : List (Option MArg × Option MArg)),
          (l.map (MExpressionParser.mkSql b1)).map clearParameterized
            = (l.map (MExpressionParser.mkSql b2)).map clearParameterized := by
        intro b1 b2 l
        induction l with
        | nil => rfl
        | cons x xs ih =>
          simp only [List.map_cons, ih]
          rfl
      simp only [MExpressionParser.extractDataSources, if_neg hs,
        List.map_append]
      rw [hseg (decide (MExpressionParser.extractParameterRefs dp1 s.toList ≠ []))
          (decide (MExpressionParser.extractParameterRefs dp2 s.toList ≠ []))]

/-- Claim C8, counterexample. In `'T'[C] + [M]` the token `[M]` is standalone
and immediately preceded by a space, yet it is not extracted as a measure
reference: the extractor's lookbehind suppresses every bracketed token that
follows a single-quote character anywhere earlier in the cleaned text. -/
theorem dax_measure_ref_counterexample :
    DAXReferenceExtractor.extract (some "'T'[C] + [M]")
      = ⟨[], [⟨"T", "C"⟩], []⟩ := by decide

/-- Claim C8, amended. A standalone `[Name]` not immediately preceded by `.`,
an identifier character or a single quote — and not positioned after any
single-quote character occurring earlier in the comment/string-stripped text —
is extracted as a measure reference; `Sales[Amount]` and
`'Sales Table'[Amount]` are extracted as column references deduplicated by
the `table|column` key; and bracketed tokens inside `"…"` string literals,
after `//` line comments, or inside `/* */` block comments are never
extracted.  All three reference lists are duplicate-free for every input. -/
theorem dax_reference_extraction :
    ((DAXReferenceExtractor.extract (some "[Sales Amount] + 0")).measureRefs
       = ["Sales Amount"]) ∧
    ((DAXReferenceExtractor.extract
        (some "Sales[Amount] + 'Sales Table'[Amount] + Sales[Amount]")).columnRefs
       = [⟨"Sales", "Amount"⟩, ⟨"Sales Table", "Amount"⟩]) ∧
    (DAXReferenceExtractor.extract
        (some "\"txt [InString]\" + [M1] // [InComment]\n + /* [InBlock] */ [M2]")
       = ⟨["M1", "M2"], [], []⟩) ∧
    (∀ dax : Option String,
       ((DAXReferenceExtractor.extract dax).columnRefs.map colKey).Nodup ∧
       (DAXReferenceExtractor.extract dax).measureRefs.Nodup ∧
       (DAXReferenceExtractor.extract dax).tableRefs.Nodup) := by
  refine ⟨by decide, by decide, by decide, ?_⟩
  intro dax
  cases dax with
  | none => simp [DAXReferenceExtractor.extract]
  | some s =>
    by_cases hs : s = ""
    · simp [DAXReferenceExtractor.extract, hs]
    · simp only [DAXReferenceExtractor.extract, if_neg hs]
      refine ⟨dedupBy_keys_nodup colKey _, ?_, ?_⟩
      · have h := dedupBy_keys_nodup (id : String → String)
          (DAXReferenceExtractor.measureScan
            ((DAXReferenceExtractor.cleanDAX s.toList).length + 1) false none
            (DAXReferenceExtractor.cleanDAX s.toList))
        simpa using h
      · have h := dedupBy_keys_nodup (id : String → String)
          (DAXReferenceExtractor.tableScan
            ((DAXReferenceExtractor.cleanDAX s.toList).length + 1)
            (DAXReferenceExtractor.cleanDAX s.toList))
        simpa using h

theorem foldl_min_le_init : ∀ (t : List Nat) (acc : Nat), t.foldl min acc ≤ acc := by
  intro t
  induction t with
  | nil => intro acc; exact le_refl acc
  | cons x xs ih =>
    intro acc
    exact le_trans (ih (min acc x)) (min_le_left acc x)

theorem foldl_min_le_mem : ∀ (t : List Nat) (acc a : Nat), a ∈ t →
    t.foldl min acc ≤ a := by
  intro t
  induction t with
  | nil => intro acc a h; cases h
  | cons x xs ih =>
    intro acc a h
    rcases List.mem_cons.mp h with rfl | h
    · exact le_trans (foldl_min_le_init xs (min acc a)) (min_le_right acc a)
    · exact ih (min acc x) a h

theorem natMin_le (l : List Nat) (a : Nat) (h : a ∈ l) :
    TMDLParser.natMin l ≤ a := by
  cases l with
  | nil => cases h
  | cons x xs =>
    rcases List.mem_cons.mp h with rfl | h
    · exact foldl_min_le_init xs a
    · exact foldl_min_le_mem xs x a h

/-- Claim C9. When an expression buffer contains a triple-backtick marker line
(pushed trimmed by the parser, hence at indentation zero), `_cleanExpression`
dedents by zero: every non-blank captured line survives verbatim, blank lines
stay as blank lines, and only leading/trailing blank lines are stripped.
Concretely, a table file whose measure expression holds a backtick block with
an internal blank line and mixed indentation parses to the block text with
the blank line and the original indentation intact. -/
theorem backtick_block_verbatim :
    (∀ ls : List String, "```" ∈ ls →
      TMDLParser.cleanExpression ls
        = some (TMDLParser.joinNL (TMDLParser.dropTrailEmpty
            (TMDLParser.dropLeadEmpty
              (ls.map (fun l => if jsTrim l = "" then "" else l)))))) ∧
    ((TMDLParser.parseTable backtickFile).measures.map
        (fun m => (m.name, m.expression))
      = [("M", some "```\n\t\tLINE1\n\n\t\t  LINE2\n```")]) := by
  constructor
  · intro ls hmem
    have hne : ls ≠ [] := by intro h; rw [h] at hmem; cases hmem
    have hmemNE : "```" ∈ ls.filter (fun l => jsTrim l ≠ "") := by
      refine List.mem_filter.mpr ⟨hmem, by decide⟩
    have hfne : ls.filter (fun l => jsTrim l ≠ "") ≠ [] := by
      intro h; rw [h] at hmemNE; cases hmemNE
    have hmin : TMDLParser.natMin
        ((ls.filter (fun l => jsTrim l ≠ "")).map TMDLParser.leadWS) = 0 := by
      have h0 : TMDLParser.leadWS "```"
          ∈ (ls.filter (fun l => jsTrim l ≠ "")).map TMDLParser.leadWS :=
        List.mem_map_of_mem TMDLParser.leadWS hmemNE
      have hle := natMin_le _ _ h0
      have hz : TMDLParser.leadWS "```" = 0 := by decide
      omega
    have hdz : ∀ s : String, TMDLParser.strDrop s 0 = s := fun s => rfl
    simp only [TMDLParser.cleanExpression, if_neg hne, if_neg hfne, hmin,
      Nat.zero_min, hdz]
  · decide

/-- Witness for C9's general part at a concrete buffer: the backtick marker
forces zero dedent, so the indented line and the internal blank line are kept
as captured. -/
theorem backtick_block_verbatim_witness :
    TMDLParser.cleanExpression ["```", "  a", "", "```"]
      = some "```\n  a\n\n```" := by
  rw [backtick_block_verbatim.1 ["```", "  a", "", "```"] (by decide)]
  decide

/-- Claim C10. The DAX reference extractor and the M data-source extractor are
total functions in the embedding; on `null`/`undefined` (`none`) and on the
empty string they return empty reference/source lists, and malformed
expression text (unbalanced brackets, unterminated string literals, truncated
connector calls) likewise yields empty lists rather than any failure. -/
theorem extraction_total :
    (∀ dp : Option (List String),
      MExpressionParser.extractDataSources dp none = [] ∧
      MExpressionParser.extractDataSources dp (some "") = []) ∧
    DAXReferenceExtractor.extract none = ⟨[], [], []⟩ ∧
    DAXReferenceExtractor.extract (some "") = ⟨[], [], []⟩ ∧
    DAXReferenceExtractor.extract (some "]][[ ((( \"unterminated")
      = ⟨[], [], []⟩ ∧
    MExpressionParser.extractDataSources none (some "Sql.Database(") = [] :=
  ⟨fun _ => ⟨rfl, rfl⟩, rfl, rfl, by decide, by decide⟩

end Pbip
